import Mathlib

/-!
Verification development for the stateful bookkeeping services of the 213bot
repository: chat activity / inactivity detection
(`bot/services/chat_activity_service.py`), command cooldown gating
(`bot/middlewares/command_cooldown.py`), daily photo vote aggregation with
winner selection (`bot/services/daily_vote_service.py`,
`bot/handlers/dead_chat.py`), and monthly usage statistics
(`bot/services/goon_stats_service.py`).

The Python code is embedded shallowly:
* timezone-aware `datetime` values become `PyDateTime`: an instant measured in
  microseconds since the Unix epoch (Python datetimes have microsecond
  precision) together with the attached tzinfo's UTC offset in minutes.
  Comparison, equality and subtraction of aware datetimes in Python use only
  the instant, and `astimezone` changes only the offset — exactly as below.
  The business timezone `ZoneInfo("Europe/Moscow")` is the fixed offset
  UTC+3 (180 minutes).
* `timedelta` values become microsecond counts (`Int`).
* Python `dict`s (which preserve insertion order) become association lists;
  `aset` replaces in place or appends, `adel` removes, matching dict updates.
* the JSON files written by the services become inert data structures; fields
  that the loader re-parses with a partial parser (`int(...)`,
  `datetime.fromisoformat(...)`) are stored as `JField` values: either a
  well-formed value or an opaque malformed blob on which the parser raises.
* functions that internally call `datetime.now(...)` take the current instant
  as an explicit argument.
-/

/-- Microseconds per second. -/
def usecPerSec : Int := 1000000

/-- Microseconds per minute. -/
def usecPerMin : Int := 60000000

/-- Microseconds per hour. -/
def usecPerHour : Int := 3600000000

/-- Microseconds per day. -/
def usecPerDay : Int := 86400000000

/-- UTC offset of `ZoneInfo("Europe/Moscow")` in minutes (UTC+3). -/
def moscowOffsetMin : Int := 180

/-- A timezone-aware Python `datetime`: the instant it denotes (microseconds
since the Unix epoch, in UTC) plus the UTC offset of its attached tzinfo in
minutes.  Python compares aware datetimes by instant alone. -/
structure PyDateTime where
  utcUsec : Int
  tzOffsetMin : Int
  deriving Repr, DecidableEq

/-- `dt.astimezone(tz)`: same instant, new offset. -/
def PyDateTime.astimezone (dt : PyDateTime) (offsetMin : Int) : PyDateTime :=
  ⟨dt.utcUsec, offsetMin⟩

/-- Python `==` on aware datetimes: equality of instants. -/
def PyDateTime.pyEq (a b : PyDateTime) : Prop := a.utcUsec = b.utcUsec

instance : DecidablePred fun p : PyDateTime × PyDateTime => p.1.pyEq p.2 :=
  fun p => inferInstanceAs (Decidable (p.1.utcUsec = p.2.utcUsec))

instance (a b : PyDateTime) : Decidable (a.pyEq b) :=
  inferInstanceAs (Decidable (a.utcUsec = b.utcUsec))

/-- Wall-clock microseconds of the datetime in its own timezone. -/
def PyDateTime.wallUsec (dt : PyDateTime) : Int :=
  dt.utcUsec + dt.tzOffsetMin * usecPerMin

/-- `dt.hour` for an aware datetime: hour-of-day of the wall clock
(`/` and `%` on `Int` are floor division and its remainder, matching
Python's semantics). -/
def PyDateTime.hour (dt : PyDateTime) : Int :=
  dt.wallUsec % usecPerDay / usecPerHour

/-- The result of `datetime.isoformat()` on an aware datetime, kept as its
informational content rather than as a character string: the wall-clock
calendar day (as days since the epoch — `YYYY-MM-DD` is a bijective rendering
of this number), the time-of-day components, and the printed UTC offset.
`datetime.fromisoformat` recovers exactly these components. -/
structure IsoTimestamp where
  day : Int
  hourc : Nat
  minutec : Nat
  secondc : Nat
  usecc : Nat
  offsetMin : Int
  deriving Repr, DecidableEq

/-- `dt.isoformat()`: split the wall clock into day and time-of-day
components and record the offset. -/
def PyDateTime.isoformat (dt : PyDateTime) : IsoTimestamp :=
  let wall := dt.wallUsec
  let rem : Nat := (wall % usecPerDay).toNat
  { day := wall / usecPerDay
    hourc := rem / 3600000000
    minutec := rem / 60000000 % 60
    secondc := rem / 1000000 % 60
    usecc := rem % 1000000
    offsetMin := dt.tzOffsetMin }

/-- `datetime.fromisoformat`: rebuild the aware datetime from the components
(a fixed-offset tzinfo carrying the printed offset). -/
def fromisoformat (t : IsoTimestamp) : PyDateTime :=
  let wall : Int := t.day * usecPerDay +
    (t.hourc * 3600000000 + t.minutec * 60000000 + t.secondc * 1000000 + t.usecc : Nat)
  { utcUsec := wall - t.offsetMin * usecPerMin, tzOffsetMin := t.offsetMin }

/-- `fromisoformat` inverts `isoformat` exactly: serializing an aware datetime
to its ISO-8601 text and parsing it back yields the same instant and offset,
to full microsecond precision. -/
theorem fromisoformat_isoformat (dt : PyDateTime) :
    fromisoformat dt.isoformat = dt := by
  cases dt with
  | mk u off =>
    unfold fromisoformat PyDateTime.isoformat PyDateTime.wallUsec
    simp only [usecPerDay, usecPerMin]
    congr 1
    omega

/-! ### Association lists standing in for Python dicts

Python dicts preserve insertion order; updating an existing key keeps its
position, inserting a new key appends.  `alookup` is `d.get(k)` / `k in d`,
`aset` is `d[k] = v`, `adel` is `del d[k]`. -/

def alookup {α β : Type} [DecidableEq α] : List (α × β) → α → Option β
  | [], _ => none
  | (k, v) :: rest, key => if key = k then some v else alookup rest key

def aset {α β : Type} [DecidableEq α] : List (α × β) → α → β → List (α × β)
  | [], key, val => [(key, val)]
  | (k, v) :: rest, key, val =>
      if key = k then (k, val) :: rest else (k, v) :: aset rest key val

def adel {α β : Type} [DecidableEq α] : List (α × β) → α → List (α × β)
  | [], _ => []
  | (k, v) :: rest, key =>
      if key = k then adel rest key else (k, v) :: adel rest key

theorem alookup_aset_self {α β : Type} [DecidableEq α]
    (l : List (α × β)) (k : α) (v : β) : alookup (aset l k v) k = some v := by
  induction l with
  | nil => simp [aset, alookup]
  | cons hd tl ih =>
    by_cases h : k = hd.1
    · simp [aset, alookup, h]
    · simp [aset, alookup, h, ih]

theorem alookup_aset_ne {α β : Type} [DecidableEq α]
    (l : List (α × β)) (k k' : α) (v : β) (h : k' ≠ k) :
    alookup (aset l k v) k' = alookup l k' := by
  induction l with
  | nil => simp [aset, alookup, h]
  | cons hd tl ih =>
    by_cases hk : k = hd.1
    · subst hk
      simp [aset, alookup, h]
    · by_cases hk' : k' = hd.1
      · simp [aset, alookup, hk, hk']
      · simp [aset, alookup, hk, hk', ih]

theorem alookup_adel_self {α β : Type} [DecidableEq α]
    (l : List (α × β)) (k : α) : alookup (adel l k) k = none := by
  induction l with
  | nil => simp [adel, alookup]
  | cons hd tl ih =>
    by_cases h : k = hd.1
    · subst h
      simp [adel, alookup, ih]
    · simp [adel, alookup, h, ih]

theorem alookup_adel_ne {α β : Type} [DecidableEq α]
    (l : List (α × β)) (k k' : α) (h : k' ≠ k) :
    alookup (adel l k) k' = alookup l k' := by
  induction l with
  | nil => simp [adel, alookup]
  | cons hd tl ih =>
    by_cases hk : k = hd.1
    · subst hk
      simp [adel, alookup, h, ih]
    · by_cases hk' : k' = hd.1
      · simp [adel, alookup, hk, hk']
      · simp [adel, alookup, hk, hk', ih]

/-! ### Bucket keys in the Moscow business timezone

`DailyVoteService._date_key` renders the MSK calendar date as `YYYY-MM-DD`;
distinct calendar days give distinct strings, so the key is embedded as the
day number of the MSK wall clock.  `GoonStatsService._month_key` renders
`YYYY-MM` via `strftime`; it is embedded as the month number
`year * 12 + month`, computed from the day number with the standard
days-to-civil-calendar conversion. -/

/-- Calendar day of the datetime's instant in the Moscow timezone
(`dt.astimezone(moscow).date()`, as days since the Unix epoch). -/
def dateKeyOf (dt : PyDateTime) : Int :=
  (dt.astimezone moscowOffsetMin).wallUsec / usecPerDay

/-- Civil calendar date (year, month, day) of a day number counted from the
Unix epoch (days-to-civil conversion over the proleptic Gregorian calendar). -/
def civilFromDays (z0 : Int) : Int × Int × Int :=
  let z := z0 + 719468
  let era := z / 146097
  let doe := z - era * 146097
  let yoe := (doe - doe / 1460 + doe / 36524 - doe / 146096) / 365
  let y := yoe + era * 400
  let doy := doe - (365 * yoe + yoe / 4 - yoe / 100)
  let mp := (5 * doy + 2) / 153
  let d := doy - (153 * mp + 2) / 5 + 1
  let m := mp + (if mp < 10 then 3 else -9)
  (y + (if m ≤ 2 then 1 else 0), m, d)

/-- Month key of the datetime's instant in the Moscow timezone
(`dt.astimezone(moscow).strftime("%Y-%m")`, as a month count). -/
def monthKeyOf (dt : PyDateTime) : Int :=
  let c := civilFromDays ((dt.astimezone moscowOffsetMin).wallUsec / usecPerDay)
  c.1 * 12 + c.2.1

/-! ### `ChatActivityService` (`bot/services/chat_activity_service.py`)

State: `_last_activity : Dict[int, datetime]` plus the threshold
`timedelta(minutes=inactive_minutes)` fixed at construction and the
hard-coded active-hours pair `(9, 21)`.  All datetimes the service itself
creates are `datetime.now(moscow_tz)`, so only instants matter; the map
stores instants.  Functions that call `datetime.now` take `now` (the current
instant in microseconds) as an argument. -/

structure ChatActivityService where
  lastActivity : List (Int × Int)
  inactiveThresholdUsec : Int

/-- `ChatActivityService(inactive_minutes)`. -/
def ChatActivityService.init (inactiveMinutes : Int) : ChatActivityService :=
  ⟨[], inactiveMinutes * usecPerMin⟩

/-- `self.active_hours = (9, 21)`. -/
def activeHours : Int × Int := (9, 21)

/-- Hour-of-day of an instant in the Moscow timezone: the `.hour` of
`datetime.now(moscow_tz)` taken at that instant. -/
def mskHour (nowUsec : Int) : Int :=
  (PyDateTime.mk nowUsec moscowOffsetMin).hour

/-- `ChatActivityService._is_active_hours(dt)` where `dt` is the MSK "now". -/
def isActiveHoursAt (nowUsec : Int) : Bool :=
  decide (activeHours.1 ≤ mskHour nowUsec) && decide (mskHour nowUsec < activeHours.2)

/-- `ChatActivityService.update_activity(chat_id)` at current instant `now`. -/
def ChatActivityService.update_activity (s : ChatActivityService)
    (chatId : Int) (nowUsec : Int) : ChatActivityService :=
  { s with lastActivity := aset s.lastActivity chatId nowUsec }

/-- `ChatActivityService.is_chat_inactive(chat_id)` at current instant `now`. -/
def ChatActivityService.is_chat_inactive (s : ChatActivityService)
    (chatId : Int) (nowUsec : Int) : Bool :=
  match alookup s.lastActivity chatId with
  | none => false
  | some lastActivity =>
    if !isActiveHoursAt nowUsec then false
    else decide (nowUsec - lastActivity ≥ s.inactiveThresholdUsec)

/-- `ChatActivityService.mark_dead_chat_sent(chat_id)` at current instant
`now`: resets last activity to `now`. -/
def ChatActivityService.mark_dead_chat_sent (s : ChatActivityService)
    (chatId : Int) (nowUsec : Int) : ChatActivityService :=
  { s with lastActivity := aset s.lastActivity chatId nowUsec }

/-- `ChatActivityService.get_inactive_chats()` at current instant `now`. -/
def ChatActivityService.get_inactive_chats (s : ChatActivityService)
    (nowUsec : Int) : List Int :=
  (s.lastActivity.map (·.1)).filter (fun chatId => s.is_chat_inactive chatId nowUsec)

/-! ### `CommandCooldownService` (`bot/middlewares/command_cooldown.py`)

State: `_last_used : Dict[str, datetime]`.  Keys are the command name or
`f"{command}:{chat_id}"`; values are instants (the service only ever stores
`datetime.now(moscow_tz)` and subtracts). -/

structure CommandCooldownService where
  lastUsed : List (String × Int)

def CommandCooldownService.init : CommandCooldownService := ⟨[]⟩

/-- `CommandCooldownService._get_key(command, chat_id)`. -/
def cooldownKey (command : String) (chatId : Option Int) : String :=
  match chatId with
  | none => command
  | some c => command ++ ":" ++ toString c

/-- `CommandCooldownService.can_execute(command, cooldown_hours, chat_id)` at
current instant `now`: `(can_execute, remaining_time)`. -/
def CommandCooldownService.can_execute (s : CommandCooldownService)
    (command : String) (cooldownHours : Int) (chatId : Option Int)
    (nowUsec : Int) : Bool × Option Int :=
  let key := cooldownKey command chatId
  match alookup s.lastUsed key with
  | none => (true, none)
  | some lastUsed =>
    let timePassed := nowUsec - lastUsed
    let cooldown := cooldownHours * usecPerHour
    if timePassed ≥ cooldown then (true, none)
    else (false, some (cooldown - timePassed))

/-- `CommandCooldownService.mark_used(command, chat_id)` at instant `now`. -/
def CommandCooldownService.mark_used (s : CommandCooldownService)
    (command : String) (chatId : Option Int) (nowUsec : Int) :
    CommandCooldownService :=
  ⟨aset s.lastUsed (cooldownKey command chatId) nowUsec⟩

/-! ### `DailyVoteService` (`bot/services/daily_vote_service.py`)

In-memory state: `_entries_by_date : date_key → chat_id → [DailyPhotoEntry]`
plus whether a storage directory is available (`storage_dir` is `None` when
absent or when `mkdir` failed).  The durable side is modelled explicitly: a
`DailyDisk` maps date keys to the JSON files `daily_vote_<date_key>.json`.

A persisted JSON value that the loader re-parses with a partial parser is a
`JField`: `ok v` is a text the parser accepts (carrying its parse), `bad`
is a text on which the parser raises (`int("x")`,
`datetime.fromisoformat("garbage")`, `int(None)` for a missing field, ...). -/

inductive JField (α : Type) where
  | ok : α → JField α
  | bad : JField α
  deriving Repr, DecidableEq

/-- Run the partial parser on a persisted field: `none` means it raises. -/
def parseJ {α : Type} : JField α → Option α
  | .ok a => some a
  | .bad => none

theorem parseJ_ok {α : Type} (a : α) : parseJ (JField.ok a) = some a := rfl

/-- A Python `for` loop building a list, where the body may raise: the first
raise aborts the whole computation (the caller's `except` sees it before any
result is installed). -/
def optTraverse {α β : Type} (f : α → Option β) : List α → Option (List β)
  | [] => some []
  | a :: l =>
    match f a, optTraverse f l with
    | some b, some bs => some (b :: bs)
    | _, _ => none

structure DailyPhotoEntry where
  chat_id : Int
  message_id : Int
  file_id : String
  sent_at : PyDateTime
  deriving Repr, DecidableEq

/-- One record of a persisted daily-vote JSON file: what `json.load` hands
back for one element of the per-chat array.  `file_id` is read back with
`str(...)`, which never raises. -/
structure RawEntry where
  raw_chat_id : JField Int
  raw_message_id : JField Int
  raw_file_id : String
  raw_sent_at : JField IsoTimestamp
  deriving Repr, DecidableEq

/-- A persisted daily-vote file: the JSON object mapping `str(chat_id)` keys
(re-parsed with `int(...)`) to arrays of records. -/
abbrev DailyFile : Type := List (JField Int × List RawEntry)

/-- The durable store: date key → file, file present iff key present. -/
abbrev DailyDisk : Type := List (Int × DailyFile)

structure DailyVoteService where
  entriesByDate : List (Int × List (Int × List DailyPhotoEntry))
  hasStorage : Bool

/-- `DailyVoteService(storage_dir)`: empty cache; `hasStorage` records
whether a usable storage directory exists. -/
def DailyVoteService.init (hasStorage : Bool) : DailyVoteService :=
  ⟨[], hasStorage⟩

/-- Loading one array element in `_maybe_load_date`: `int(e.get("message_id"))`
raises on a malformed value (propagating to the outer `except`), while
`datetime.fromisoformat(e.get("sent_at"))` sits in an inner `try` whose
handler substitutes `datetime.now(self.moscow_tz)`; either way the result is
normalised with `.astimezone(self.moscow_tz)`. -/
def loadRawEntry (chatId : Int) (now : PyDateTime) (e : RawEntry) :
    Option DailyPhotoEntry :=
  match parseJ e.raw_message_id with
  | none => none
  | some mid =>
    let sentAt := match parseJ e.raw_sent_at with
      | some t => fromisoformat t
      | none => now
    some { chat_id := chatId, message_id := mid, file_id := e.raw_file_id,
           sent_at := sentAt.astimezone moscowOffsetMin }

/-- Loading one chat's slot: `chat_id = int(chat_id_str)` may raise (again
reaching the outer `except`), then every record is converted. -/
def loadDailyChat (now : PyDateTime) (c : JField Int × List RawEntry) :
    Option (Int × List DailyPhotoEntry) :=
  match parseJ c.1 with
  | none => none
  | some cid => (optTraverse (loadRawEntry cid now) c.2).map fun es => (cid, es)

/-- Body of the outer `try` of `_maybe_load_date`: `none` means some record
raised and the whole load was abandoned by the `except` handler. -/
def loadDailyFile (file : DailyFile) (now : PyDateTime) :
    Option (List (Int × List DailyPhotoEntry)) :=
  optTraverse (loadDailyChat now) file

/-- `DailyVoteService._maybe_load_date(date_key)`: skip when cached, when no
storage directory is configured, or when the file does not exist; otherwise
parse the file and install the result, leaving the cache untouched when the
parse raises (the exception is caught and only logged). -/
def DailyVoteService.maybe_load_date (s : DailyVoteService) (disk : DailyDisk)
    (dateKey : Int) (now : PyDateTime) : DailyVoteService :=
  match alookup s.entriesByDate dateKey with
  | some _ => s
  | none =>
    if s.hasStorage then
      match alookup disk dateKey with
      | none => s
      | some file =>
        match loadDailyFile file now with
        | some result => { s with entriesByDate := aset s.entriesByDate dateKey result }
        | none => s
    else s

/-- Serialisation of one entry in `_save_date`: every field is written from
the in-memory dataclass (`sent_at` via `isoformat()`), so each persisted
field is parseable text. -/
def dumpEntry (e : DailyPhotoEntry) : RawEntry :=
  ⟨.ok e.chat_id, .ok e.message_id, e.file_id, .ok e.sent_at.isoformat⟩

/-- Serialisation of a date bucket (`to_dump` in `_save_date`). -/
def dumpDateBucket (bucket : List (Int × List DailyPhotoEntry)) : DailyFile :=
  bucket.map fun c => (JField.ok c.1, c.2.map dumpEntry)

/-- `DailyVoteService._save_date(date_key)`: no-op without a storage
directory; otherwise rewrite the date's file with the serialised bucket
(`self._entries_by_date.get(date_key, {})`). -/
def DailyVoteService.save_date (s : DailyVoteService) (disk : DailyDisk)
    (dateKey : Int) : DailyDisk :=
  if s.hasStorage then
    aset disk dateKey (dumpDateBucket ((alookup s.entriesByDate dateKey).getD []))
  else disk

/-- `DailyVoteService.record_entry(chat_id, message_id, file_id, sent_at)`.
`now` is the current instant used only by the load path's timestamp
fallback. -/
def DailyVoteService.record_entry (s : DailyVoteService) (disk : DailyDisk)
    (chatId messageId : Int) (fileId : String) (sentAt : PyDateTime)
    (now : PyDateTime) : DailyVoteService × DailyDisk :=
  let dateKey := dateKeyOf sentAt
  let s1 := s.maybe_load_date disk dateKey now
  let dateBucket := (alookup s1.entriesByDate dateKey).getD []
  let chatList := (alookup dateBucket chatId).getD []
  let entry : DailyPhotoEntry :=
    { chat_id := chatId, message_id := messageId, file_id := fileId,
      sent_at := sentAt.astimezone moscowOffsetMin }
  let s2 : DailyVoteService :=
    { s1 with
      entriesByDate := aset s1.entriesByDate dateKey
        (aset dateBucket chatId (chatList ++ [entry])) }
  (s2, s2.save_date disk dateKey)

/-- `DailyVoteService.get_chats_for_date(date_key)`. -/
def DailyVoteService.get_chats_for_date (s : DailyVoteService)
    (disk : DailyDisk) (dateKey : Int) (now : PyDateTime) :
    DailyVoteService × List Int :=
  let s1 := s.maybe_load_date disk dateKey now
  (s1, ((alookup s1.entriesByDate dateKey).getD []).map (·.1))

/-- `DailyVoteService.get_entries_for_date(date_key, chat_id)`. -/
def DailyVoteService.get_entries_for_date (s : DailyVoteService)
    (disk : DailyDisk) (dateKey : Int) (chatId : Int) (now : PyDateTime) :
    DailyVoteService × List DailyPhotoEntry :=
  let s1 := s.maybe_load_date disk dateKey now
  (s1, ((alookup ((alookup s1.entriesByDate dateKey).getD []) chatId).getD []))

/-- `DailyVoteService.clear_date(date_key)`: drop the in-memory bucket and
unlink the file when a storage directory is configured. -/
def DailyVoteService.clear_date (s : DailyVoteService) (disk : DailyDisk)
    (dateKey : Int) : DailyVoteService × DailyDisk :=
  ({ s with entriesByDate := adel s.entriesByDate dateKey },
   if s.hasStorage then adel disk dateKey else disk)

/-! ### `GoonStatsService` (`bot/services/goon_stats_service.py`)

In-memory state: `_counts_by_month : month_key → chat_id → user_id → count`.
Durable side: `GoonDisk` maps month keys to the files
`goon_stats_<month_key>.json`.  Counts are Python ints, embedded as `Int`. -/

structure GoonUsage where
  user_id : Int
  count : Int
  deriving Repr, DecidableEq

/-- A persisted monthly stats file: `str(chat_id) → (str(user_id) → count)`,
with every field re-parsed through `int(...)` on load. -/
abbrev GoonFile : Type := List (JField Int × List (JField Int × JField Int))

abbrev GoonDisk : Type := List (Int × GoonFile)

structure GoonStatsService where
  countsByMonth : List (Int × List (Int × List (Int × Int)))
  hasStorage : Bool

def GoonStatsService.init (hasStorage : Bool) : GoonStatsService :=
  ⟨[], hasStorage⟩

/-- Body of the single `try` of `_maybe_load_month`: every chat key, user key
and count goes through `int(...)`; any failure raises out to the `except`
handler which abandons the whole load (`none`). -/
def loadGoonFile (file : GoonFile) : Option (List (Int × List (Int × Int))) :=
  optTraverse
    (fun c =>
      match parseJ c.1 with
      | none => none
      | some cid =>
        (optTraverse
          (fun (u : JField Int × JField Int) =>
            match parseJ u.1, parseJ u.2 with
            | some uid, some cnt => some (uid, cnt)
            | _, _ => none) c.2).map fun users => (cid, users))
    file

/-- `GoonStatsService._maybe_load_month(month_key)`. -/
def GoonStatsService.maybe_load_month (s : GoonStatsService) (disk : GoonDisk)
    (monthKey : Int) : GoonStatsService :=
  match alookup s.countsByMonth monthKey with
  | some _ => s
  | none =>
    if s.hasStorage then
      match alookup disk monthKey with
      | none => s
      | some file =>
        match loadGoonFile file with
        | some result => { s with countsByMonth := aset s.countsByMonth monthKey result }
        | none => s
    else s

/-- Serialisation of a month bucket (`to_dump` in `_save_month`). -/
def dumpMonthBucket (bucket : List (Int × List (Int × Int))) : GoonFile :=
  bucket.map fun c => (JField.ok c.1, c.2.map fun u => (JField.ok u.1, JField.ok u.2))

/-- `GoonStatsService._save_month(month_key)`. -/
def GoonStatsService.save_month (s : GoonStatsService) (disk : GoonDisk)
    (monthKey : Int) : GoonDisk :=
  if s.hasStorage then
    aset disk monthKey (dumpMonthBucket ((alookup s.countsByMonth monthKey).getD []))
  else disk

/-- `GoonStatsService.record_usage(chat_id, user_id, when)`; `dt` is
`when or datetime.now(self.moscow_tz)` already resolved. -/
def GoonStatsService.record_usage (s : GoonStatsService) (disk : GoonDisk)
    (chatId userId : Int) (dt : PyDateTime) : GoonStatsService × GoonDisk :=
  let monthKey := monthKeyOf dt
  let s1 := s.maybe_load_month disk monthKey
  let monthBucket := (alookup s1.countsByMonth monthKey).getD []
  let perUser := (alookup monthBucket chatId).getD []
  let newCount := (alookup perUser userId).getD 0 + 1
  let s2 : GoonStatsService :=
    { s1 with
      countsByMonth := aset s1.countsByMonth monthKey
        (aset monthBucket chatId (aset perUser userId newCount)) }
  (s2, s2.save_month disk monthKey)

/-- The sort key of `get_top_for_month`: Python's
`sorted(per_chat.items(), key=lambda kv: (-kv[1], kv[0]))`, i.e. the
lexicographic order on `(-count, user_id)`. -/
def goonLe (a b : Int × Int) : Prop :=
  b.2 < a.2 ∨ (a.2 = b.2 ∧ a.1 ≤ b.1)

instance : DecidableRel goonLe := fun a b =>
  inferInstanceAs (Decidable (b.2 < a.2 ∨ (a.2 = b.2 ∧ a.1 ≤ b.1)))

instance : IsTotal (Int × Int) goonLe :=
  ⟨fun a b => by
    unfold goonLe
    rcases lt_trichotomy a.2 b.2 with h | h | h
    · exact Or.inr (Or.inl h)
    · rcases le_total a.1 b.1 with h' | h'
      · exact Or.inl (Or.inr ⟨h, h'⟩)
      · exact Or.inr (Or.inr ⟨h.symm, h'⟩)
    · exact Or.inl (Or.inl h)⟩

instance : IsTrans (Int × Int) goonLe :=
  ⟨fun a b c hab hbc => by
    unfold goonLe at *
    rcases hab with h | ⟨he, hu⟩ <;> rcases hbc with h' | ⟨he', hu'⟩
    · exact Or.inl (lt_trans h' h)
    · exact Or.inl (he' ▸ h)
    · exact Or.inl (he ▸ h')
    · exact Or.inr ⟨he.trans he', le_trans hu hu'⟩⟩

/-- `GoonStatsService.get_top_for_month(month_key, chat_id, top_n)`:
`sorted(...)[:top_n]` wrapped into `GoonUsage` records.  Python's `sorted`
is embedded as insertion sort (any sorting algorithm agrees here: the key
`(-count, user_id)` is antisymmetric on the distinct keys of a dict). -/
def GoonStatsService.get_top_for_month (s : GoonStatsService) (disk : GoonDisk)
    (monthKey : Int) (chatId : Int) (topN : Nat) :
    GoonStatsService × List GoonUsage :=
  let s1 := s.maybe_load_month disk monthKey
  let perChat := (alookup ((alookup s1.countsByMonth monthKey).getD []) chatId).getD []
  let sortedItems := perChat.insertionSort goonLe
  (s1, (sortedItems.take topN).map fun p => ⟨p.1, p.2⟩)

/-- `GoonStatsService.clear_month(month_key)`. -/
def GoonStatsService.clear_month (s : GoonStatsService) (disk : GoonDisk)
    (monthKey : Int) : GoonStatsService × GoonDisk :=
  ({ s with countsByMonth := adel s.countsByMonth monthKey },
   if s.hasStorage then adel disk monthKey else disk)

/-! ### Winner selection (`bot/handlers/dead_chat.py`, `_announce_tyan_for_date`)

The selection loop over one chat's entries.  The reaction count of an entry
is supplied from outside (`telegram_client_service.get_message_reaction_total`
— a count of reactions, hence a natural number); the loop compares it against
the running `best_count`, which starts at `-1`. -/

/-- The loop's update condition:
`count > best_count or (count == best_count and best_entry is not None and
entry.sent_at < best_entry.sent_at)`. -/
def takesOver (count : Int) (entry : DailyPhotoEntry)
    (best : Option DailyPhotoEntry × Int) : Bool :=
  decide (count > best.2) ||
    (decide (count = best.2) &&
      match best.1 with
      | none => false
      | some bestEntry => decide (entry.sent_at.utcUsec < bestEntry.sent_at.utcUsec))

/-- One iteration of the `for entry in entries` loop: fetch the entry's
reaction count and conditionally replace `(best_entry, best_count)`. -/
def selStep (score : DailyPhotoEntry → Nat)
    (best : Option DailyPhotoEntry × Int) (entry : DailyPhotoEntry) :
    Option DailyPhotoEntry × Int :=
  let count : Int := score entry
  if takesOver count entry best then (some entry, count) else best

/-- The `for entry in entries` loop of `_announce_tyan_for_date`, folding the
`(best_entry, best_count)` pair from `(None, -1)`; the function returns the
final `best_entry`. -/
def selectWinner (entries : List DailyPhotoEntry)
    (score : DailyPhotoEntry → Nat) : Option DailyPhotoEntry :=
  (entries.foldl (selStep score)
    ((none : Option DailyPhotoEntry), (-1 : Int))).1

/-! ## Claim theorems -/

/-- C3: `is_chat_inactive(chat_id)` at current instant `now` returns true iff
(a) a prior activity record exists for the chat, (b) the MSK hour of `now`
lies in the half-open window `[9, 21)`, and (c) `now - last_activity` is at
least the inactivity threshold.  In particular a chat with no recorded
activity is never inactive, and outside the active window the result is false
however much time has elapsed. -/
theorem claim_C3_is_chat_inactive_iff (s : ChatActivityService)
    (chatId nowUsec : Int) :
    (s.is_chat_inactive chatId nowUsec = true ↔
      ∃ last, alookup s.lastActivity chatId = some last ∧
        9 ≤ mskHour nowUsec ∧ mskHour nowUsec < 21 ∧
        nowUsec - last ≥ s.inactiveThresholdUsec) ∧
    (alookup s.lastActivity chatId = none →
      s.is_chat_inactive chatId nowUsec = false) ∧
    (¬ (9 ≤ mskHour nowUsec ∧ mskHour nowUsec < 21) →
      s.is_chat_inactive chatId nowUsec = false) := by
  have hwin : isActiveHoursAt nowUsec = true ↔
      (9 ≤ mskHour nowUsec ∧ mskHour nowUsec < 21) := by
    unfold isActiveHoursAt activeHours
    simp
  refine ⟨?_, ?_, ?_⟩
  · unfold ChatActivityService.is_chat_inactive
    cases h : alookup s.lastActivity chatId with
    | none => simp
    | some last =>
      by_cases hw : isActiveHoursAt nowUsec
      · obtain ⟨h9, h21⟩ := hwin.mp hw
        simp only [hw, Bool.not_true, Bool.false_eq_true, if_false,
          decide_eq_true_eq]
        constructor
        · intro hge
          exact ⟨last, rfl, h9, h21, hge⟩
        · rintro ⟨last', hl', _, _, hge⟩
          cases hl'
          exact hge
      · have hw' : isActiveHoursAt nowUsec = false := by
          simpa using hw
        simp only [hw', Bool.not_false, if_true, Bool.false_eq_true, false_iff]
        rintro ⟨last', hl', h9, h21, _⟩
        exact hw (hwin.mpr ⟨h9, h21⟩)
  · intro h
    unfold ChatActivityService.is_chat_inactive
    simp [h]
  · intro h
    have hw' : isActiveHoursAt nowUsec = false := by
      rcases Bool.eq_false_or_eq_true (isActiveHoursAt nowUsec) with h' | h'
      · exact absurd (hwin.mp h') h
      · exact h'
    unfold ChatActivityService.is_chat_inactive
    cases halookup : alookup s.lastActivity chatId <;> simp [hw']

/-- Witness for C3 at a concrete input: a service whose chat 7 was last
active at MSK noon of day 0, queried 16 minutes later with a 15-minute
threshold — inactive. -/
theorem claim_C3_is_chat_inactive_iff_witness :
    ((ChatActivityService.init 15).update_activity 7 (9 * usecPerHour)).is_chat_inactive
        7 (9 * usecPerHour + 16 * usecPerMin) = true :=
  ((claim_C3_is_chat_inactive_iff
      ((ChatActivityService.init 15).update_activity 7 (9 * usecPerHour))
      7 (9 * usecPerHour + 16 * usecPerMin)).1).mpr
    ⟨9 * usecPerHour, by decide, by decide, by decide, by decide⟩

/-- C4: `can_execute` returns `(True, None)` when no record exists for the
key or when `now - last_used` is at least the cooldown (the boundary at
exactly the cooldown is allowed); otherwise `(False, remaining)` with
`remaining = cooldown - (now - last_used)`.  Concretely, after
`mark_used` at `t0`, querying at `t0 + cooldown - 1s` is blocked with 1s
remaining and querying at `t0 + cooldown` is allowed. -/
theorem claim_C4_can_execute (s : CommandCooldownService) (command : String)
    (cooldownHours : Int) (chatId : Option Int) (nowUsec t0 : Int) :
    ((alookup s.lastUsed (cooldownKey command chatId) = none ∨
        ∃ last, alookup s.lastUsed (cooldownKey command chatId) = some last ∧
          nowUsec - last ≥ cooldownHours * usecPerHour) →
      s.can_execute command cooldownHours chatId nowUsec = (true, none)) ∧
    (∀ last, alookup s.lastUsed (cooldownKey command chatId) = some last →
      nowUsec - last < cooldownHours * usecPerHour →
      s.can_execute command cooldownHours chatId nowUsec =
        (false, some (cooldownHours * usecPerHour - (nowUsec - last)))) ∧
    ((s.mark_used command chatId t0).can_execute command cooldownHours chatId
        (t0 + cooldownHours * usecPerHour - usecPerSec) =
      (false, some usecPerSec)) ∧
    ((s.mark_used command chatId t0).can_execute command cooldownHours chatId
        (t0 + cooldownHours * usecPerHour) = (true, none)) := by
  refine ⟨?_, ?_, ?_, ?_⟩
  · rintro (h | ⟨last, hl, hge⟩)
    · unfold CommandCooldownService.can_execute
      simp [h]
    · unfold CommandCooldownService.can_execute
      simp [hl, hge]
  · intro last hl hlt
    unfold CommandCooldownService.can_execute
    simp [hl, not_le.mpr hlt, le_of_lt hlt]
  · unfold CommandCooldownService.mark_used CommandCooldownService.can_execute
    simp only [alookup_aset_self]
    have h1 : ¬ (t0 + cooldownHours * usecPerHour - usecPerSec - t0 ≥
        cooldownHours * usecPerHour) := by
      simp only [usecPerSec]
      omega
    simp only [ge_iff_le, h1, if_false]
    have h2 : cooldownHours * usecPerHour -
        (t0 + cooldownHours * usecPerHour - usecPerSec - t0) = usecPerSec := by
      ring
    rw [h2]
  · unfold CommandCooldownService.mark_used CommandCooldownService.can_execute
    simp only [alookup_aset_self]
    have h1 : t0 + cooldownHours * usecPerHour - t0 ≥ cooldownHours * usecPerHour := by
      omega
    simp [h1]

/-- Witness for C4 at a concrete input: a 24-hour cooldown marked used at
instant 0, queried one second before and exactly at the boundary. -/
theorem claim_C4_can_execute_witness :
    ((CommandCooldownService.init.mark_used "kill_random" (some 5) 0).can_execute
        "kill_random" 24 (some 5) (0 + 24 * usecPerHour - usecPerSec) =
      (false, some usecPerSec)) ∧
    ((CommandCooldownService.init.mark_used "kill_random" (some 5) 0).can_execute
        "kill_random" 24 (some 5) (0 + 24 * usecPerHour) = (true, none)) ∧
    (CommandCooldownService.init.can_execute "kill_random" 24 (some 5) 0 =
      (true, none)) := by
  have h := claim_C4_can_execute CommandCooldownService.init "kill_random" 24
    (some 5) 0 0
  refine ⟨?_, h.2.2.2, ?_⟩
  · have h' := claim_C4_can_execute CommandCooldownService.init "kill_random" 24
      (some 5) (0 + 24 * usecPerHour - usecPerSec) 0
    exact h'.2.2.1
  · exact h.1 (Or.inl (by decide))

/-- C7 (counterexample to the claim as stated): the claim quantifies over
*every* inactivity threshold, but `ChatActivityService(inactive_minutes=0)`
is a legal construction and there `mark_dead_chat_sent` followed immediately
by `is_chat_inactive` at the same instant (inside the active window: MSK noon)
returns `True`, because `time_passed >= self.inactive_threshold` compares
`0 >= 0`. -/
theorem claim_C7_counterexample :
    ((ChatActivityService.init 0).mark_dead_chat_sent 7
        (9 * usecPerHour)).is_chat_inactive 7 (9 * usecPerHour) = true ∧
      isActiveHoursAt (9 * usecPerHour) = true ∧
      (ChatActivityService.init 0).inactiveThresholdUsec = 0 := by
  refine ⟨?_, ?_, ?_⟩ <;> decide

/-- C7 (amended): for every *positive* inactivity threshold and every `now`
inside the active window, `mark_dead_chat_sent(chat_id)` followed immediately
by `is_chat_inactive(chat_id)` at the same `now` returns false, so the window
cannot re-fire until the threshold elapses again. -/
theorem claim_C7_mark_dead_chat_resets (s : ChatActivityService)
    (chatId nowUsec : Int) (hpos : 0 < s.inactiveThresholdUsec)
    (_hwin : 9 ≤ mskHour nowUsec ∧ mskHour nowUsec < 21) :
    (s.mark_dead_chat_sent chatId nowUsec).is_chat_inactive chatId nowUsec
      = false := by
  unfold ChatActivityService.mark_dead_chat_sent ChatActivityService.is_chat_inactive
  simp only [alookup_aset_self]
  have h : ¬ (nowUsec - nowUsec ≥ s.inactiveThresholdUsec) := by omega
  by_cases hw : isActiveHoursAt nowUsec <;> simp [hw, h, hpos]

/-- Witness for the amended C7 at a concrete input: threshold 15 minutes,
`now` at MSK noon. -/
theorem claim_C7_mark_dead_chat_resets_witness :
    ((ChatActivityService.init 15).mark_dead_chat_sent 7
        (9 * usecPerHour)).is_chat_inactive 7 (9 * usecPerHour) = false :=
  claim_C7_mark_dead_chat_resets (ChatActivityService.init 15) 7
    (9 * usecPerHour) (by decide) (by decide)

/-! ### Winner-selection analysis (C1)

`strictlyBetter score e b` is the loop's replacement condition: `e` has a
strictly higher score than `b`, or an equal score and a strictly earlier
`sent_at`. -/

def strictlyBetter (score : DailyPhotoEntry → Nat) (e b : DailyPhotoEntry) : Prop :=
  score b < score e ∨
    (score e = score b ∧ e.sent_at.utcUsec < b.sent_at.utcUsec)

instance (score : DailyPhotoEntry → Nat) (e b : DailyPhotoEntry) :
    Decidable (strictlyBetter score e b) :=
  inferInstanceAs (Decidable (_ ∨ _))

/-- The loop of `_announce_tyan_for_date` once a best entry exists: keep the
challenger exactly when it is strictly better. -/
def pick1 (score : DailyPhotoEntry → Nat) :
    DailyPhotoEntry → List DailyPhotoEntry → DailyPhotoEntry
  | best, [] => best
  | best, e :: rest =>
      pick1 score (if strictlyBetter score e best then e else best) rest

theorem strictlyBetter_irrefl (score : DailyPhotoEntry → Nat)
    (a : DailyPhotoEntry) : ¬ strictlyBetter score a a := by
  unfold strictlyBetter
  omega

theorem strictlyBetter_trans (score : DailyPhotoEntry → Nat)
    (a b c : DailyPhotoEntry) (h1 : strictlyBetter score a b)
    (h2 : strictlyBetter score b c) : strictlyBetter score a c := by
  unfold strictlyBetter at *
  omega

theorem strictlyBetter_neg_trans (score : DailyPhotoEntry → Nat)
    (a b c : DailyPhotoEntry) (h1 : ¬ strictlyBetter score a b)
    (h2 : ¬ strictlyBetter score b c) : ¬ strictlyBetter score a c := by
  unfold strictlyBetter at *
  omega

theorem strictlyBetter_shift (score : DailyPhotoEntry → Nat)
    (e best r : DailyPhotoEntry) (h1 : strictlyBetter score e best)
    (h2 : ¬ strictlyBetter score e r) : strictlyBetter score r best := by
  unfold strictlyBetter at *
  omega

theorem strictlyBetter_shift' (score : DailyPhotoEntry → Nat)
    (e best r : DailyPhotoEntry) (h1 : strictlyBetter score r best)
    (h2 : ¬ strictlyBetter score e best) : strictlyBetter score r e := by
  unfold strictlyBetter at *
  omega

/-- Nothing seen so far — the running best included — is strictly better than
the loop's final best. -/
theorem pick1_max (score : DailyPhotoEntry → Nat) :
    ∀ (l : List DailyPhotoEntry) (best x : DailyPhotoEntry),
      (x = best ∨ x ∈ l) → ¬ strictlyBetter score x (pick1 score best l) := by
  intro l
  induction l with
  | nil =>
    intro best x hx
    rcases hx with rfl | hx
    · simpa [pick1] using strictlyBetter_irrefl score x
    · simp at hx
  | cons e rest ih =>
    intro best x hx
    by_cases hsb : strictlyBetter score e best
    · have hpick : pick1 score best (e :: rest) = pick1 score e rest := by
        simp [pick1, hsb]
      rw [hpick]
      rcases hx with heq | hx
      · rw [heq]
        intro hcon
        exact ih e e (Or.inl rfl)
          (strictlyBetter_trans score e best (pick1 score e rest) hsb hcon)
      · rcases List.mem_cons.mp hx with heq | hmem
        · rw [heq]
          exact ih e e (Or.inl rfl)
        · exact ih e x (Or.inr hmem)
    · have hpick : pick1 score best (e :: rest) = pick1 score best rest := by
        simp [pick1, hsb]
      rw [hpick]
      rcases hx with heq | hx
      · rw [heq]
        exact ih best best (Or.inl rfl)
      · rcases List.mem_cons.mp hx with heq | hmem
        · rw [heq]
          exact strictlyBetter_neg_trans score e best (pick1 score best rest)
            hsb (ih best best (Or.inl rfl))
        · exact ih best x (Or.inr hmem)

/-- The loop's final best occurs in `best :: l`, and everything strictly
before its (first) occurrence is strictly worse. -/
theorem pick1_decomp (score : DailyPhotoEntry → Nat) :
    ∀ (l : List DailyPhotoEntry) (best : DailyPhotoEntry),
      ∃ pre post, best :: l = pre ++ pick1 score best l :: post ∧
        ∀ x ∈ pre, strictlyBetter score (pick1 score best l) x := by
  intro l
  induction l with
  | nil =>
    intro best
    exact ⟨[], [], by simp [pick1], by simp⟩
  | cons e rest ih =>
    intro best
    by_cases hsb : strictlyBetter score e best
    · have hpick : pick1 score best (e :: rest) = pick1 score e rest := by
        simp [pick1, hsb]
      obtain ⟨pre', post', heq, hworse⟩ := ih e
      refine ⟨best :: pre', post', ?_, ?_⟩
      · rw [hpick]
        simpa using heq
      · intro x hx
        rw [hpick]
        rcases List.mem_cons.mp hx with heq | hmem
        · rw [heq]
          exact strictlyBetter_shift score e best (pick1 score e rest) hsb
            (pick1_max score rest e e (Or.inl rfl))
        · exact hworse x hmem
    · have hpick : pick1 score best (e :: rest) = pick1 score best rest := by
        simp [pick1, hsb]
      obtain ⟨pre', post', heq, hworse⟩ := ih best
      cases pre' with
      | nil =>
        simp only [List.nil_append] at heq
        injection heq with h1 h2
        refine ⟨[], e :: rest, ?_, by simp⟩
        rw [hpick, ← h1]
        simp
      | cons p0 ptl =>
        simp only [List.cons_append, List.cons.injEq] at heq
        obtain ⟨hp0, hrest⟩ := heq
        refine ⟨best :: e :: ptl, post', ?_, ?_⟩
        · rw [hpick]
          simp only [List.cons_append]
          exact congrArg (List.cons best) (congrArg (List.cons e) hrest)
        · intro x hx
          rw [hpick]
          have hrbest : strictlyBetter score (pick1 score best rest) best := by
            rw [← hp0] at hworse
            exact hworse best (List.mem_cons_self _ _)
          rcases List.mem_cons.mp hx with heq2 | hmem
          · rw [heq2]
            exact hrbest
          · rcases List.mem_cons.mp hmem with heq2 | hmem2
            · rw [heq2]
              exact strictlyBetter_shift' score e best (pick1 score best rest)
                hrbest hsb
            · rw [← hp0] at hworse
              exact hworse x (List.mem_cons_of_mem _ hmem2)

/-- The loop's replacement test agrees with `strictlyBetter` once a best
entry is held: comparing the challenger's reaction count (a natural number)
against the held `best_count`, which always equals the held entry's score. -/
theorem takesOver_eq_strictlyBetter (score : DailyPhotoEntry → Nat)
    (e w : DailyPhotoEntry) :
    takesOver ((score e : Nat) : Int) e (some w, ((score w : Nat) : Int)) =
      decide (strictlyBetter score e w) := by
  show (decide (((score e : Nat) : Int) > ((score w : Nat) : Int)) ||
      (decide (((score e : Nat) : Int) = ((score w : Nat) : Int)) &&
        decide (e.sent_at.utcUsec < w.sent_at.utcUsec))) = _
  rw [← Bool.decide_and, ← Bool.decide_or]
  apply decide_eq_decide.mpr
  unfold strictlyBetter
  constructor
  · rintro (h | ⟨h1, h2⟩)
    · exact Or.inl (by exact_mod_cast h)
    · exact Or.inr ⟨by exact_mod_cast h1, h2⟩
  · rintro (h | ⟨h1, h2⟩)
    · exact Or.inl (by exact_mod_cast h)
    · exact Or.inr ⟨by exact_mod_cast h1, h2⟩

/-- Once the loop holds `(some w, score w)`, folding the remaining entries
yields `pick1`'s choice (and the held count is always the held score). -/
theorem selectWinner_loop_pick1 (score : DailyPhotoEntry → Nat) :
    ∀ (l : List DailyPhotoEntry) (w : DailyPhotoEntry),
      l.foldl (selStep score)
        ((some w : Option DailyPhotoEntry), ((score w : Nat) : Int)) =
      (some (pick1 score w l), ((score (pick1 score w l) : Nat) : Int)) := by
  intro l
  induction l with
  | nil => intro w; simp [pick1]
  | cons e rest ih =>
    intro w
    rw [List.foldl_cons]
    by_cases hsb : strictlyBetter score e w
    · have hstep : selStep score (some w, ((score w : Nat) : Int)) e =
          (some e, ((score e : Nat) : Int)) := by
        simp only [selStep]
        rw [takesOver_eq_strictlyBetter]
        simp [hsb]
      rw [hstep, ih e]
      simp [pick1, hsb]
    · have hstep : selStep score (some w, ((score w : Nat) : Int)) e =
          (some w, ((score w : Nat) : Int)) := by
        simp only [selStep]
        rw [takesOver_eq_strictlyBetter]
        simp [hsb]
      rw [hstep, ih w]
      simp [pick1, hsb]

/-- On a nonempty entry list the selection loop returns `pick1`'s choice,
seeded by the first entry (the first iteration always replaces the initial
`(None, -1)` because a reaction count is nonnegative). -/
theorem selectWinner_eq_pick1 (score : DailyPhotoEntry → Nat)
    (e : DailyPhotoEntry) (l : List DailyPhotoEntry) :
    selectWinner (e :: l) score = some (pick1 score e l) := by
  unfold selectWinner
  rw [List.foldl_cons]
  have hstep : selStep score ((none : Option DailyPhotoEntry), (-1 : Int)) e =
      (some e, ((score e : Nat) : Int)) := by
    unfold selStep takesOver
    have h : ((score e : Nat) : Int) > -1 := by omega
    simp [h]
  rw [hstep, selectWinner_loop_pick1 score l e]

/-- C1: over the entries of one chat for one date key, the selection loop of
`_announce_tyan_for_date` on an empty list yields no winner, and on a
nonempty list yields an entry `w` of the list such that (a) `w`'s reaction
count is maximal, (b) among entries of maximal count `w` has the earliest
`sent_at`, and (c) every entry strictly before `w` in recorded order is
strictly worse (lower count, or equal count and strictly later `sent_at`) —
so among entries tying on both count and `sent_at`, the first in recorded
order wins. -/
theorem claim_C1_winner_selection (entries : List DailyPhotoEntry)
    (score : DailyPhotoEntry → Nat) :
    (entries = [] → selectWinner entries score = none) ∧
    (entries ≠ [] → ∃ w, selectWinner entries score = some w ∧
      w ∈ entries ∧
      (∀ e ∈ entries, score e ≤ score w) ∧
      (∀ e ∈ entries, score e = score w →
        w.sent_at.utcUsec ≤ e.sent_at.utcUsec) ∧
      (∃ pre post, entries = pre ++ w :: post ∧
        ∀ e ∈ pre, score e < score w ∨
          (score e = score w ∧ w.sent_at.utcUsec < e.sent_at.utcUsec))) := by
  constructor
  · intro h
    subst h
    rfl
  · intro hne
    cases entries with
    | nil => exact absurd rfl hne
    | cons e0 l =>
      refine ⟨pick1 score e0 l, selectWinner_eq_pick1 score e0 l, ?_, ?_, ?_, ?_⟩
      · obtain ⟨pre, post, heq, -⟩ := pick1_decomp score l e0
        rw [heq]
        exact List.mem_append_right pre (List.mem_cons_self _ _)
      · intro e he
        have h := pick1_max score l e0 e
          (by rcases List.mem_cons.mp he with h' | h'
              · exact Or.inl h'
              · exact Or.inr h')
        unfold strictlyBetter at h
        omega
      · intro e he hs
        have h := pick1_max score l e0 e
          (by rcases List.mem_cons.mp he with h' | h'
              · exact Or.inl h'
              · exact Or.inr h')
        unfold strictlyBetter at h
        omega
      · obtain ⟨pre, post, heq, hworse⟩ := pick1_decomp score l e0
        refine ⟨pre, post, heq, ?_⟩
        intro e he
        have h := hworse e he
        unfold strictlyBetter at h
        omega

/-- Witness for C1 at the spec's concrete examples: scores `[3, 5]` pick the
score-5 entry; scores `[5, 5]` with `sent_at` T1 < T2 pick the T1 entry; an
empty list yields no winner.  The score function reads reaction counts off
the `message_id`. -/
theorem claim_C1_winner_selection_witness :
    (selectWinner [] (fun e => e.message_id.toNat) = none) ∧
    (∃ w, selectWinner
        [⟨1, 3, "a", ⟨100, 180⟩⟩, ⟨1, 5, "b", ⟨200, 180⟩⟩]
        (fun e => e.message_id.toNat) = some w ∧
      w ∈ [(⟨1, 3, "a", ⟨100, 180⟩⟩ : DailyPhotoEntry), ⟨1, 5, "b", ⟨200, 180⟩⟩] ∧
      (∀ e ∈ [(⟨1, 3, "a", ⟨100, 180⟩⟩ : DailyPhotoEntry), ⟨1, 5, "b", ⟨200, 180⟩⟩],
        e.message_id.toNat ≤ w.message_id.toNat) ∧
      (∀ e ∈ [(⟨1, 3, "a", ⟨100, 180⟩⟩ : DailyPhotoEntry), ⟨1, 5, "b", ⟨200, 180⟩⟩],
        e.message_id.toNat = w.message_id.toNat →
          w.sent_at.utcUsec ≤ e.sent_at.utcUsec) ∧
      (∃ pre post,
        [(⟨1, 3, "a", ⟨100, 180⟩⟩ : DailyPhotoEntry), ⟨1, 5, "b", ⟨200, 180⟩⟩]
          = pre ++ w :: post ∧
        ∀ e ∈ pre, e.message_id.toNat < w.message_id.toNat ∨
          (e.message_id.toNat = w.message_id.toNat ∧
            w.sent_at.utcUsec < e.sent_at.utcUsec))) ∧
    (selectWinner [⟨1, 5, "a", ⟨100, 180⟩⟩, ⟨1, 5, "b", ⟨200, 180⟩⟩]
        (fun e => e.message_id.toNat) =
      some ⟨1, 5, "a", ⟨100, 180⟩⟩) := by
  refine ⟨?_, ?_, ?_⟩
  · exact (claim_C1_winner_selection [] (fun e => e.message_id.toNat)).1 rfl
  · exact (claim_C1_winner_selection
      [⟨1, 3, "a", ⟨100, 180⟩⟩, ⟨1, 5, "b", ⟨200, 180⟩⟩]
      (fun e => e.message_id.toNat)).2 (by decide)
  · decide

/-! ### Ranking analysis (C5) -/

/-- The strict ranking the claim describes on returned leaderboard rows:
count descending, ties broken by strictly ascending user ID. -/
def goonRank (a b : GoonUsage) : Prop :=
  b.count < a.count ∨ (a.count = b.count ∧ a.user_id < b.user_id)

/-- A list sorted under the `(-count, user_id)` key whose user IDs are
distinct (as the keys of a Python dict are) is sorted under the strict
ranking. -/
theorem sorted_goonRank_of_sorted_nodup :
    ∀ l : List (Int × Int), l.Sorted goonLe → (l.map Prod.fst).Nodup →
      l.Sorted (fun a b : Int × Int => b.2 < a.2 ∨ (a.2 = b.2 ∧ a.1 < b.1)) := by
  intro l
  induction l with
  | nil => intro _ _; exact List.sorted_nil
  | cons a t ih =>
    intro hs hn
    rw [List.sorted_cons] at hs ⊢
    rw [List.map_cons, List.nodup_cons] at hn
    refine ⟨?_, ih hs.2 hn.2⟩
    intro b hb
    have hle := hs.1 b hb
    have hne : a.1 ≠ b.1 := fun hcon => hn.1 (hcon ▸ List.mem_map_of_mem Prod.fst hb)
    unfold goonLe at hle
    rcases hle with h | ⟨h1, h2⟩
    · exact Or.inl h
    · exact Or.inr ⟨h1, lt_of_le_of_ne h2 hne⟩

/-- C5: `get_top_for_month` returns the month's per-user entries of the chat
sorted by count descending with ties broken by ascending user ID, truncated
to at most `top_n` rows: the result has length at most `top_n`, is sorted
under the strict ranking, and equals the `top_n`-prefix of a sorted
permutation of the per-chat table.  In particular, recording usage three
times for user A and three times for user B (same chat and month, `A < B`)
and asking for the top 2 yields `[A, B]` with both counts 3. -/
theorem claim_C5_get_top_for_month (s : GoonStatsService) (disk : GoonDisk)
    (monthKey chatId : Int) (topN : Nat)
    (hnodup : (((alookup ((alookup (s.maybe_load_month disk monthKey).countsByMonth
        monthKey).getD []) chatId).getD []).map Prod.fst).Nodup) :
    ((s.get_top_for_month disk monthKey chatId topN).2.length ≤ topN ∧
      List.Sorted goonRank (s.get_top_for_month disk monthKey chatId topN).2 ∧
      ∃ full, full.Perm ((alookup ((alookup
          (s.maybe_load_month disk monthKey).countsByMonth monthKey).getD [])
          chatId).getD []) ∧
        List.Sorted goonLe full ∧
        (s.get_top_for_month disk monthKey chatId topN).2 =
          (full.take topN).map (fun p => GoonUsage.mk p.1 p.2)) ∧
    (∀ (chat A B : Int) (dt : PyDateTime), A < B →
      (let r1 := (GoonStatsService.init false).record_usage [] chat A dt
       let r2 := r1.1.record_usage r1.2 chat A dt
       let r3 := r2.1.record_usage r2.2 chat A dt
       let r4 := r3.1.record_usage r3.2 chat B dt
       let r5 := r4.1.record_usage r4.2 chat B dt
       let r6 := r5.1.record_usage r5.2 chat B dt
       (r6.1.get_top_for_month r6.2 (monthKeyOf dt) chat 2).2) =
        [⟨A, 3⟩, ⟨B, 3⟩]) := by
  constructor
  · set perChat := (alookup ((alookup
      (s.maybe_load_month disk monthKey).countsByMonth monthKey).getD [])
      chatId).getD [] with hperchat
    have hres : (s.get_top_for_month disk monthKey chatId topN).2 =
        ((perChat.insertionSort goonLe).take topN).map
          (fun p => GoonUsage.mk p.1 p.2) := rfl
    refine ⟨?_, ?_, ?_⟩
    · rw [hres]
      rw [List.length_map, List.length_take]
      exact min_le_left _ _
    · rw [hres]
      have hsorted : (perChat.insertionSort goonLe).Sorted goonLe :=
        List.sorted_insertionSort goonLe perChat
      have hnodup' : ((perChat.insertionSort goonLe).map Prod.fst).Nodup := by
        have hperm : List.Perm ((perChat.insertionSort goonLe).map Prod.fst)
            (perChat.map Prod.fst) :=
          (List.perm_insertionSort goonLe perChat).map Prod.fst
        exact hperm.nodup_iff.mpr hnodup
      have hstrict := sorted_goonRank_of_sorted_nodup _ hsorted hnodup'
      have htake := List.Pairwise.sublist (List.take_sublist topN _) hstrict
      unfold List.Sorted
      rw [List.pairwise_map]
      exact htake.imp (fun h => h)
    · exact ⟨perChat.insertionSort goonLe, List.perm_insertionSort goonLe perChat,
        List.sorted_insertionSort goonLe perChat, hres⟩
  · intro chat A B dt hAB
    have hBA : ¬ (B = A) := by omega
    have hle : A ≤ B := le_of_lt hAB
    have h1 : (GoonStatsService.init false).record_usage [] chat A dt =
        (⟨[(monthKeyOf dt, [(chat, [(A, 1)])])], false⟩, []) := by
      simp [GoonStatsService.init, GoonStatsService.record_usage,
        GoonStatsService.maybe_load_month, GoonStatsService.save_month,
        alookup, aset]
    have h2 : GoonStatsService.record_usage
        ⟨[(monthKeyOf dt, [(chat, [(A, 1)])])], false⟩ [] chat A dt =
        (⟨[(monthKeyOf dt, [(chat, [(A, 2)])])], false⟩, []) := by
      simp [GoonStatsService.record_usage, GoonStatsService.maybe_load_month,
        GoonStatsService.save_month, alookup, aset]
    have h3 : GoonStatsService.record_usage
        ⟨[(monthKeyOf dt, [(chat, [(A, 2)])])], false⟩ [] chat A dt =
        (⟨[(monthKeyOf dt, [(chat, [(A, 3)])])], false⟩, []) := by
      simp [GoonStatsService.record_usage, GoonStatsService.maybe_load_month,
        GoonStatsService.save_month, alookup, aset]
    have h4 : GoonStatsService.record_usage
        ⟨[(monthKeyOf dt, [(chat, [(A, 3)])])], false⟩ [] chat B dt =
        (⟨[(monthKeyOf dt, [(chat, [(A, 3), (B, 1)])])], false⟩, []) := by
      simp [GoonStatsService.record_usage, GoonStatsService.maybe_load_month,
        GoonStatsService.save_month, alookup, aset, hBA]
    have h5 : GoonStatsService.record_usage
        ⟨[(monthKeyOf dt, [(chat, [(A, 3), (B, 1)])])], false⟩ [] chat B dt =
        (⟨[(monthKeyOf dt, [(chat, [(A, 3), (B, 2)])])], false⟩, []) := by
      simp [GoonStatsService.record_usage, GoonStatsService.maybe_load_month,
        GoonStatsService.save_month, alookup, aset, hBA]
    have h6 : GoonStatsService.record_usage
        ⟨[(monthKeyOf dt, [(chat, [(A, 3), (B, 2)])])], false⟩ [] chat B dt =
        (⟨[(monthKeyOf dt, [(chat, [(A, 3), (B, 3)])])], false⟩, []) := by
      simp [GoonStatsService.record_usage, GoonStatsService.maybe_load_month,
        GoonStatsService.save_month, alookup, aset, hBA]
    simp only [h1, h2, h3, h4, h5, h6]
    simp [GoonStatsService.get_top_for_month, GoonStatsService.maybe_load_month,
      alookup, List.insertionSort, List.orderedInsert, goonLe, hle, hBA]

/-- Witness for C5 at a concrete input: chat 1, user 1 then user 2 (three
recordings each, same instant), top-2 query returns both with count 3, user 1
first. -/
theorem claim_C5_get_top_for_month_witness :
    (let r1 := (GoonStatsService.init false).record_usage [] 1 1 ⟨0, 180⟩
     let r2 := r1.1.record_usage r1.2 1 1 ⟨0, 180⟩
     let r3 := r2.1.record_usage r2.2 1 1 ⟨0, 180⟩
     let r4 := r3.1.record_usage r3.2 1 2 ⟨0, 180⟩
     let r5 := r4.1.record_usage r4.2 1 2 ⟨0, 180⟩
     let r6 := r5.1.record_usage r5.2 1 2 ⟨0, 180⟩
     (r6.1.get_top_for_month r6.2 (monthKeyOf ⟨0, 180⟩) 1 2).2) =
      [⟨1, 3⟩, ⟨2, 3⟩] :=
  (claim_C5_get_top_for_month (GoonStatsService.init false) [] 0 1 10
    (by decide)).2 1 1 2 ⟨0, 180⟩ (by decide)

/-! ### Persistence round trip (C2) -/

/-- What the loader produces for a persisted entry: the dict key becomes the
`chat_id`, and the timestamp comes back through
`fromisoformat(...).astimezone(moscow)`. -/
def relabelEntry (cid : Int) (e : DailyPhotoEntry) : DailyPhotoEntry :=
  ⟨cid, e.message_id, e.file_id, e.sent_at.astimezone moscowOffsetMin⟩

/-- Python `==` on `DailyPhotoEntry` dataclasses: fieldwise `==`, which on
the aware `sent_at` datetimes compares instants. -/
def entryPyEq (a b : DailyPhotoEntry) : Prop :=
  a.chat_id = b.chat_id ∧ a.message_id = b.message_id ∧
    a.file_id = b.file_id ∧ a.sent_at.pyEq b.sent_at

/-- Loading back one serialised entry succeeds and recovers every field; the
timestamp survives `isoformat`/`fromisoformat` exactly. -/
theorem loadRawEntry_dumpEntry (cid : Int) (now : PyDateTime)
    (e : DailyPhotoEntry) :
    loadRawEntry cid now (dumpEntry e) = some (relabelEntry cid e) := by
  unfold loadRawEntry dumpEntry parseJ relabelEntry
  simp [fromisoformat_isoformat]

theorem optTraverse_loadRawEntry_dump (cid : Int) (now : PyDateTime)
    (es : List DailyPhotoEntry) :
    optTraverse (loadRawEntry cid now) (es.map dumpEntry) =
      some (es.map (relabelEntry cid)) := by
  induction es with
  | nil => rfl
  | cons e rest ih =>
    simp [optTraverse, loadRawEntry_dumpEntry, ih]

theorem loadDailyChat_dump (now : PyDateTime) (cid : Int)
    (es : List DailyPhotoEntry) :
    loadDailyChat now (JField.ok cid, es.map dumpEntry) =
      some (cid, es.map (relabelEntry cid)) := by
  unfold loadDailyChat parseJ
  simp [optTraverse_loadRawEntry_dump]

/-- Loading back a whole serialised date bucket succeeds and yields the
bucket with each entry relabelled by its dict key. -/
theorem loadDailyFile_dump (now : PyDateTime)
    (bucket : List (Int × List DailyPhotoEntry)) :
    loadDailyFile (dumpDateBucket bucket) now =
      some (bucket.map fun c => (c.1, c.2.map (relabelEntry c.1))) := by
  induction bucket with
  | nil => rfl
  | cons c rest ih =>
    unfold loadDailyFile dumpDateBucket at *
    simp [optTraverse, loadDailyChat_dump, ih]

/-- Looking up in a list whose entries were rewritten value-wise (keys kept). -/
theorem alookup_relabel (l : List (Int × List DailyPhotoEntry)) (k : Int) :
    alookup (l.map fun c => (c.1, c.2.map (relabelEntry c.1))) k =
      (alookup l k).map fun es => es.map (relabelEntry k) := by
  induction l with
  | nil => simp [alookup]
  | cons c rest ih =>
    by_cases h : k = c.1
    · subst h
      simp [alookup]
    · simp [alookup, h, ih]

theorem maybe_load_date_hasStorage (s : DailyVoteService) (disk : DailyDisk)
    (dateKey : Int) (now : PyDateTime) :
    (s.maybe_load_date disk dateKey now).hasStorage = s.hasStorage := by
  unfold DailyVoteService.maybe_load_date
  split
  · rfl
  · split
    · split
      · rfl
      · split
        · rfl
        · rfl
    · rfl

theorem forall₂_relabel (cid : Int) :
    ∀ l : List DailyPhotoEntry, (∀ e ∈ l, e.chat_id = cid) →
      List.Forall₂ entryPyEq (l.map (relabelEntry cid)) l := by
  intro l
  induction l with
  | nil => intro _; exact List.Forall₂.nil
  | cons e rest ih =>
    intro h
    refine List.Forall₂.cons ?_ (ih fun x hx => h x (List.mem_cons_of_mem _ hx))
    refine ⟨(h e (List.mem_cons_self _ _)).symm, rfl, rfl, rfl⟩

/-- C2: persistence round trip.  Start from any service state with a usable
storage directory whose cached entries for the target date and chat carry
that chat's ID (as every entry the service itself builds does).  After
`record_entry(C, message_id, file_id, sent_at)`, a brand-new
`DailyVoteService` over the same storage directory — a fresh load simulating
a process restart — answers `get_entries_for_date(D, C)` with a list equal,
entry by entry and in recorded order, to the in-memory list that was just
recorded: same `chat_id`, `message_id` and `file_id`, and `sent_at` the same
instant at full microsecond precision.  Moreover the recorded list is the
prior bucket extended with exactly the new entry. -/
theorem claim_C2_round_trip (s : DailyVoteService) (disk : DailyDisk)
    (chatId messageId : Int) (fileId : String) (sentAt now nowR : PyDateTime)
    (hs : s.hasStorage = true)
    (hkeys : ∀ e ∈ (alookup ((alookup
        (s.maybe_load_date disk (dateKeyOf sentAt) now).entriesByDate
        (dateKeyOf sentAt)).getD []) chatId).getD [], e.chat_id = chatId) :
    List.Forall₂ entryPyEq
      ((DailyVoteService.init true).get_entries_for_date
        (s.record_entry disk chatId messageId fileId sentAt now).2
        (dateKeyOf sentAt) chatId nowR).2
      ((alookup ((alookup
        (s.record_entry disk chatId messageId fileId sentAt now).1.entriesByDate
        (dateKeyOf sentAt)).getD []) chatId).getD []) ∧
    (alookup ((alookup
        (s.record_entry disk chatId messageId fileId sentAt now).1.entriesByDate
        (dateKeyOf sentAt)).getD []) chatId).getD [] =
      ((alookup ((alookup
        (s.maybe_load_date disk (dateKeyOf sentAt) now).entriesByDate
        (dateKeyOf sentAt)).getD []) chatId).getD []) ++
      [⟨chatId, messageId, fileId, sentAt.astimezone moscowOffsetMin⟩] := by
  set dk := dateKeyOf sentAt with hdk
  set s1 := s.maybe_load_date disk dk now with hs1
  set dateBucket := (alookup s1.entriesByDate dk).getD [] with hdbucket
  set chatList := (alookup dateBucket chatId).getD [] with hclist
  set entry : DailyPhotoEntry :=
    ⟨chatId, messageId, fileId, sentAt.astimezone moscowOffsetMin⟩ with hentry
  set s2 : DailyVoteService :=
    ⟨aset s1.entriesByDate dk (aset dateBucket chatId (chatList ++ [entry])),
      s1.hasStorage⟩ with hs2
  have hrec : s.record_entry disk chatId messageId fileId sentAt now =
      (s2, s2.save_date disk dk) := rfl
  have hs2store : s2.hasStorage = true := by
    rw [hs2]
    show s1.hasStorage = true
    rw [hs1, maybe_load_date_hasStorage]
    exact hs
  have hmem2 : (alookup ((alookup s2.entriesByDate dk).getD []) chatId).getD []
      = chatList ++ [entry] := by
    rw [hs2]
    show (alookup ((alookup (aset s1.entriesByDate dk
      (aset dateBucket chatId (chatList ++ [entry]))) dk).getD []) chatId).getD [] = _
    rw [alookup_aset_self, Option.getD_some, alookup_aset_self, Option.getD_some]
  have hsave : s2.save_date disk dk =
      aset disk dk (dumpDateBucket (aset dateBucket chatId (chatList ++ [entry]))) := by
    unfold DailyVoteService.save_date
    rw [hs2store]
    simp only [if_true]
    congr 1
    show dumpDateBucket ((alookup (aset s1.entriesByDate dk
      (aset dateBucket chatId (chatList ++ [entry]))) dk).getD []) = _
    rw [alookup_aset_self, Option.getD_some]
  have hload : ((DailyVoteService.init true).get_entries_for_date
      (s2.save_date disk dk) dk chatId nowR).2 =
      (chatList ++ [entry]).map (relabelEntry chatId) := by
    rw [hsave]
    unfold DailyVoteService.get_entries_for_date DailyVoteService.maybe_load_date
      DailyVoteService.init
    simp only [alookup, alookup_aset_self, if_true, loadDailyFile_dump]
    rw [Option.getD_some, alookup_relabel, alookup_aset_self, Option.map_some',
      Option.getD_some]
  rw [hrec]
  refine ⟨?_, ?_⟩
  · rw [hload, hmem2]
    apply forall₂_relabel
    intro e he
    rcases List.mem_append.mp he with h | h
    · exact hkeys e h
    · rcases List.mem_singleton.mp h with rfl
      rfl
  · exact hmem2

/-- Witness for C2 at a concrete input: a fresh service with storage, empty
disk, one recorded entry for chat 4; the fresh reload returns exactly that
entry. -/
theorem claim_C2_round_trip_witness :
    List.Forall₂ entryPyEq
      ((DailyVoteService.init true).get_entries_for_date
        ((DailyVoteService.init true).record_entry [] 4 10 "f" ⟨77, 0⟩ ⟨0, 180⟩).2
        (dateKeyOf ⟨77, 0⟩) 4 ⟨99, 180⟩).2
      ((alookup ((alookup
        ((DailyVoteService.init true).record_entry [] 4 10 "f" ⟨77, 0⟩
          ⟨0, 180⟩).1.entriesByDate
        (dateKeyOf ⟨77, 0⟩)).getD []) 4).getD []) :=
  (claim_C2_round_trip (DailyVoteService.init true) [] 4 10 "f" ⟨77, 0⟩ ⟨0, 180⟩
    ⟨99, 180⟩ rfl (by decide)).1

/-! ### Load resilience (C6) -/

/-- C6 (counterexample to the claim as stated): a daily-vote file holding two
records for chat 1, the first fully parseable, the second with a malformed
`message_id`.  Only `sent_at` has a per-record recovery (`try/except` around
`fromisoformat`); `int(e.get("message_id"))` raises out to the outer
`except`, abandoning the whole unit: the load returns nothing and a fresh
service sees no entries at all — the parseable record is lost too, so the
claim's "every other record in the unit is still loaded" fails. -/
theorem claim_C6_counterexample :
    loadDailyFile
      [(JField.ok 1,
        [⟨JField.ok 1, JField.ok 10, "f", JField.ok ⟨0, 0, 0, 0, 0, 180⟩⟩,
         ⟨JField.ok 1, JField.bad, "g", JField.ok ⟨0, 0, 0, 0, 0, 180⟩⟩])]
      ⟨0, 180⟩ = none ∧
    ((DailyVoteService.init true).get_entries_for_date
      [(5, [(JField.ok 1,
        [⟨JField.ok 1, JField.ok 10, "f", JField.ok ⟨0, 0, 0, 0, 0, 180⟩⟩,
         ⟨JField.ok 1, JField.bad, "g", JField.ok ⟨0, 0, 0, 0, 0, 180⟩⟩])])]
      5 1 ⟨0, 180⟩).2 = [] ∧
    loadRawEntry 1 ⟨0, 180⟩
      ⟨JField.ok 1, JField.ok 10, "f", JField.ok ⟨0, 0, 0, 0, 0, 180⟩⟩ ≠
      none := by
  refine ⟨?_, ?_, ?_⟩ <;> decide

/-- What `_maybe_load_date` makes of one persisted record when its
`message_id` parses: `chat_id` is the dict key, `file_id` is copied, and
`sent_at` is the parsed timestamp — or the current time when unparsable —
normalised to the Moscow timezone. -/
def entryLoadSpec (now : PyDateTime) (cid : Int) (e : RawEntry)
    (re : DailyPhotoEntry) : Prop :=
  parseJ e.raw_message_id = some re.message_id ∧ re.chat_id = cid ∧
    re.file_id = e.raw_file_id ∧
    re.sent_at =
      (((parseJ e.raw_sent_at).map fromisoformat).getD now).astimezone
        moscowOffsetMin

def chatLoadSpec (now : PyDateTime) (c : JField Int × List RawEntry)
    (rc : Int × List DailyPhotoEntry) : Prop :=
  parseJ c.1 = some rc.1 ∧ List.Forall₂ (entryLoadSpec now rc.1) c.2 rc.2

theorem loadRawEntry_of_mid (cid : Int) (now : PyDateTime) (e : RawEntry)
    (mid : Int) (hmid : parseJ e.raw_message_id = some mid) :
    loadRawEntry cid now e = some ⟨cid, mid, e.raw_file_id,
      (((parseJ e.raw_sent_at).map fromisoformat).getD now).astimezone
        moscowOffsetMin⟩ := by
  unfold loadRawEntry
  rw [hmid]
  cases hsent : parseJ e.raw_sent_at with
  | none => simp [hsent]
  | some t => simp [hsent]

theorem optTraverse_loadRawEntry_ok (cid : Int) (now : PyDateTime) :
    ∀ es : List RawEntry, (∀ e ∈ es, parseJ e.raw_message_id ≠ none) →
      ∃ res, optTraverse (loadRawEntry cid now) es = some res ∧
        List.Forall₂ (entryLoadSpec now cid) es res := by
  intro es
  induction es with
  | nil => exact fun _ => ⟨[], rfl, List.Forall₂.nil⟩
  | cons e rest ih =>
    intro h
    obtain ⟨res, hres, hspec⟩ := ih fun x hx => h x (List.mem_cons_of_mem _ hx)
    cases hmid : parseJ e.raw_message_id with
    | none => exact absurd hmid (h e (List.mem_cons_self _ _))
    | some mid =>
      refine ⟨⟨cid, mid, e.raw_file_id,
        (((parseJ e.raw_sent_at).map fromisoformat).getD now).astimezone
          moscowOffsetMin⟩ :: res, ?_, ?_⟩
      · simp [optTraverse, loadRawEntry_of_mid cid now e mid hmid, hres]
      · exact List.Forall₂.cons ⟨hmid, rfl, rfl, rfl⟩ hspec

theorem loadDailyFile_ok (now : PyDateTime) :
    ∀ file : DailyFile,
      (∀ c ∈ file, parseJ c.1 ≠ none ∧
        ∀ e ∈ c.2, parseJ e.raw_message_id ≠ none) →
      ∃ r, loadDailyFile file now = some r ∧
        List.Forall₂ (chatLoadSpec now) file r := by
  intro file
  induction file with
  | nil => exact fun _ => ⟨[], rfl, List.Forall₂.nil⟩
  | cons c rest ih =>
    intro h
    obtain ⟨r, hr, hspec⟩ := ih fun x hx => h x (List.mem_cons_of_mem _ hx)
    obtain ⟨hc1, hc2⟩ := h c (List.mem_cons_self _ _)
    cases hcid : parseJ c.1 with
    | none => exact absurd hcid hc1
    | some cid =>
      obtain ⟨res, hres, hspec2⟩ := optTraverse_loadRawEntry_ok cid now c.2 hc2
      refine ⟨(cid, res) :: r, ?_, ?_⟩
      · unfold loadDailyFile at hr ⊢
        simp [optTraverse, loadDailyChat, hcid, hres, hr]
      · exact List.Forall₂.cons ⟨hcid, hspec2⟩ hspec

/-- When parsing a daily-vote file raises, `_maybe_load_date` swallows the
exception and leaves the service exactly as it was. -/
theorem maybe_load_date_fail (s : DailyVoteService) (disk : DailyDisk)
    (dateKey : Int) (now : PyDateTime) (file : DailyFile)
    (hd : alookup disk dateKey = some file)
    (hf : loadDailyFile file now = none) :
    s.maybe_load_date disk dateKey now = s := by
  unfold DailyVoteService.maybe_load_date
  cases alookup s.entriesByDate dateKey with
  | some _ => rfl
  | none =>
    cases hst : s.hasStorage with
    | false => simp [hst]
    | true =>
      simp only [hst, if_true, hd, hf]

def goonUserSpec (u : JField Int × JField Int) (ru : Int × Int) : Prop :=
  parseJ u.1 = some ru.1 ∧ parseJ u.2 = some ru.2

def goonChatSpec (c : JField Int × List (JField Int × JField Int))
    (rc : Int × List (Int × Int)) : Prop :=
  parseJ c.1 = some rc.1 ∧ List.Forall₂ goonUserSpec c.2 rc.2

theorem loadGoonFile_ok :
    ∀ file : GoonFile,
      (∀ c ∈ file, parseJ c.1 ≠ none ∧
        ∀ u ∈ c.2, parseJ u.1 ≠ none ∧ parseJ u.2 ≠ none) →
      ∃ r, loadGoonFile file = some r ∧ List.Forall₂ goonChatSpec file r := by
  intro file
  induction file with
  | nil => exact fun _ => ⟨[], rfl, List.Forall₂.nil⟩
  | cons c rest ih =>
    intro h
    obtain ⟨r, hr, hspec⟩ := ih fun x hx => h x (List.mem_cons_of_mem _ hx)
    obtain ⟨hc1, hc2⟩ := h c (List.mem_cons_self _ _)
    cases hcid : parseJ c.1 with
    | none => exact absurd hcid hc1
    | some cid =>
      have husers : ∀ us : List (JField Int × JField Int),
          (∀ u ∈ us, parseJ u.1 ≠ none ∧ parseJ u.2 ≠ none) →
          ∃ rus, optTraverse
            (fun (u : JField Int × JField Int) =>
              match parseJ u.1, parseJ u.2 with
              | some uid, some cnt => some (uid, cnt)
              | _, _ => none) us = some rus ∧
            List.Forall₂ goonUserSpec us rus := by
        intro us
        induction us with
        | nil => exact fun _ => ⟨[], rfl, List.Forall₂.nil⟩
        | cons u urest uih =>
          intro hu
          obtain ⟨rus, hrus, huspec⟩ :=
            uih fun x hx => hu x (List.mem_cons_of_mem _ hx)
          obtain ⟨hu1, hu2⟩ := hu u (List.mem_cons_self _ _)
          cases huid : parseJ u.1 with
          | none => exact absurd huid hu1
          | some uid =>
            cases hcnt : parseJ u.2 with
            | none => exact absurd hcnt hu2
            | some cnt =>
              refine ⟨(uid, cnt) :: rus, ?_, ?_⟩
              · simp [optTraverse, huid, hcnt, hrus]
              · exact List.Forall₂.cons ⟨huid, hcnt⟩ huspec
      obtain ⟨rus, hrus, huspec⟩ := husers c.2 hc2
      refine ⟨(cid, rus) :: r, ?_, ?_⟩
      · unfold loadGoonFile at hr ⊢
        simp [optTraverse, hcid, hrus, hr]
      · exact List.Forall₂.cons ⟨hcid, huspec⟩ hspec

/-- When parsing a monthly stats file raises, `_maybe_load_month` swallows
the exception and leaves the service exactly as it was. -/
theorem maybe_load_month_fail (s : GoonStatsService) (disk : GoonDisk)
    (monthKey : Int) (file : GoonFile)
    (hd : alookup disk monthKey = some file)
    (hf : loadGoonFile file = none) :
    s.maybe_load_month disk monthKey = s := by
  unfold GoonStatsService.maybe_load_month
  cases alookup s.countsByMonth monthKey with
  | some _ => rfl
  | none =>
    cases hst : s.hasStorage with
    | false => simp [hst]
    | true =>
      simp only [hst, if_true, hd, hf]

/-- C6 (amended): per-record recovery exists only for the daily `sent_at`
field.  (i) A daily-vote file in which every chat key and every `message_id`
parse loads in full: chats in order, each record keeping its `message_id` and
`file_id`, with an unparsable `sent_at` — and only that field — defaulted to
the current time; (ii) a monthly stats file in which every chat key, user key
and count parse loads in full; (iii) in both services a file whose parse
raises (e.g. a malformed `message_id`, as in the counterexample) makes the
whole unit fail to load, but the exception never propagates: the in-memory
state is left exactly as it was. -/
theorem claim_C6_load_resilience (now : PyDateTime) (file : DailyFile)
    (gfile : GoonFile) (s : DailyVoteService) (g : GoonStatsService)
    (disk : DailyDisk) (gdisk : GoonDisk) (dateKey monthKey : Int)
    (hfile : ∀ c ∈ file, parseJ c.1 ≠ none ∧
      ∀ e ∈ c.2, parseJ e.raw_message_id ≠ none)
    (hgfile : ∀ c ∈ gfile, parseJ c.1 ≠ none ∧
      ∀ u ∈ c.2, parseJ u.1 ≠ none ∧ parseJ u.2 ≠ none) :
    (∃ r, loadDailyFile file now = some r ∧
      List.Forall₂ (chatLoadSpec now) file r) ∧
    (∃ r, loadGoonFile gfile = some r ∧ List.Forall₂ goonChatSpec gfile r) ∧
    (∀ f, alookup disk dateKey = some f → loadDailyFile f now = none →
      s.maybe_load_date disk dateKey now = s) ∧
    (∀ f, alookup gdisk monthKey = some f → loadGoonFile f = none →
      g.maybe_load_month gdisk monthKey = g) :=
  ⟨loadDailyFile_ok now file hfile, loadGoonFile_ok gfile hgfile,
    fun f hd hf => maybe_load_date_fail s disk dateKey now f hd hf,
    fun f hd hf => maybe_load_month_fail g gdisk monthKey f hd hf⟩

/-- Witness for the amended C6 at a concrete input: a daily file whose single
chat has one record with unparsable `sent_at` and one fully parseable record;
both load (the bad timestamp defaulted), and the failure branches are
exercised on a file with a malformed count. -/
theorem claim_C6_load_resilience_witness :
    (∃ r, loadDailyFile
        [(JField.ok 1,
          [⟨JField.ok 1, JField.ok 10, "f", JField.bad⟩,
           ⟨JField.ok 1, JField.ok 11, "g", JField.ok ⟨0, 0, 0, 0, 0, 180⟩⟩])]
        ⟨0, 180⟩ = some r ∧
      List.Forall₂ (chatLoadSpec ⟨0, 180⟩)
        [(JField.ok 1,
          [⟨JField.ok 1, JField.ok 10, "f", JField.bad⟩,
           ⟨JField.ok 1, JField.ok 11, "g", JField.ok ⟨0, 0, 0, 0, 0, 180⟩⟩])]
        r) ∧
    (∃ r, loadGoonFile [(JField.ok 1, [(JField.ok 2, JField.ok 3)])] = some r ∧
      List.Forall₂ goonChatSpec
        [(JField.ok 1, [(JField.ok 2, JField.ok 3)])] r) ∧
    (∀ f, alookup ([] : DailyDisk) 0 = some f →
      loadDailyFile f ⟨0, 180⟩ = none →
      (DailyVoteService.init true).maybe_load_date [] 0 ⟨0, 180⟩ =
        DailyVoteService.init true) ∧
    (∀ f, alookup ([(7, [(JField.ok 1, [(JField.ok 2, JField.bad)])])] :
        GoonDisk) 7 = some f →
      loadGoonFile f = none →
      (GoonStatsService.init true).maybe_load_month
        [(7, [(JField.ok 1, [(JField.ok 2, JField.bad)])])] 7 =
        GoonStatsService.init true) :=
  claim_C6_load_resilience ⟨0, 180⟩
    [(JField.ok 1,
      [⟨JField.ok 1, JField.ok 10, "f", JField.bad⟩,
       ⟨JField.ok 1, JField.ok 11, "g", JField.ok ⟨0, 0, 0, 0, 0, 180⟩⟩])]
    [(JField.ok 1, [(JField.ok 2, JField.ok 3)])]
    (DailyVoteService.init true) (GoonStatsService.init true)
    [] [(7, [(JField.ok 1, [(JField.ok 2, JField.bad)])])] 0 7
    (by decide) (by decide)

/-! ### Count bookkeeping (C8) -/

/-- The effective month table seen through the cache: the in-memory bucket
when cached, otherwise what loading the durable unit would produce (empty
when the file is absent, unreadable, or persistence is disabled). -/
def goonView (s : GoonStatsService) (disk : GoonDisk) (monthKey : Int) :
    List (Int × List (Int × Int)) :=
  match alookup s.countsByMonth monthKey with
  | some m => m
  | none =>
    if s.hasStorage then
      match alookup disk monthKey with
      | some file => (loadGoonFile file).getD []
      | none => []
    else []

/-- The effective stored count for (month, chat, user); absent means 0. -/
def goonCount (s : GoonStatsService) (disk : GoonDisk) (mk c u : Int) : Int :=
  (alookup ((alookup (goonView s disk mk) c).getD []) u).getD 0

/-- After `_maybe_load_month(mk)`, the in-memory bucket for `mk` holds
exactly the effective month table. -/
theorem maybe_load_month_view (s : GoonStatsService) (disk : GoonDisk)
    (mk : Int) :
    (alookup (s.maybe_load_month disk mk).countsByMonth mk).getD [] =
      goonView s disk mk := by
  unfold GoonStatsService.maybe_load_month goonView
  cases hm : alookup s.countsByMonth mk with
  | some m => simp [hm]
  | none =>
    cases hst : s.hasStorage with
    | false => simp [hst, hm]
    | true =>
      simp only [hst, if_true]
      cases hd : alookup disk mk with
      | none => simp [hm]
      | some file =>
        cases hf : loadGoonFile file with
        | some r => simp [alookup_aset_self, hf]
        | none => simp [hm, hf]

/-- `_maybe_load_month` changes no effective month table. -/
theorem maybe_load_month_view_all (s : GoonStatsService) (disk : GoonDisk)
    (mk mk' : Int) :
    goonView (s.maybe_load_month disk mk) disk mk' = goonView s disk mk' := by
  unfold GoonStatsService.maybe_load_month
  cases hm : alookup s.countsByMonth mk with
  | some m => rfl
  | none =>
    cases hst : s.hasStorage with
    | false => simp [hst]
    | true =>
      simp only [hst, if_true]
      cases hd : alookup disk mk with
      | none => rfl
      | some file =>
        cases hf : loadGoonFile file with
        | none => simp [hf]
        | some r =>
          unfold goonView
          by_cases heq : mk' = mk
          · subst heq
            simp [alookup_aset_self, hm, hst, hd, hf]
          · simp [hf, hst, alookup_aset_ne _ _ _ _ heq]

/-- C8 (core computation): `record_usage(chat, user, when)` adds exactly 1 to
the effective count of `(month_key(when), chat, user)` — starting from 0 when
absent — and leaves every other effective count unchanged. -/
theorem record_usage_count (s : GoonStatsService) (disk : GoonDisk)
    (chatId userId : Int) (dt : PyDateTime) (mk c u : Int) :
    goonCount (s.record_usage disk chatId userId dt).1
        (s.record_usage disk chatId userId dt).2 mk c u =
      goonCount s disk mk c u +
        (if mk = monthKeyOf dt ∧ c = chatId ∧ u = userId then 1 else 0) := by
  set mk0 := monthKeyOf dt with hmk0
  set s1 := s.maybe_load_month disk mk0 with hs1
  set monthBucket := (alookup s1.countsByMonth mk0).getD [] with hmb
  set perUser := (alookup monthBucket chatId).getD [] with hpu
  set newCount := (alookup perUser userId).getD 0 + 1 with hnc
  set newMonth := aset monthBucket chatId (aset perUser userId newCount)
    with hnm
  set s2 : GoonStatsService := ⟨aset s1.countsByMonth mk0 newMonth,
    s1.hasStorage⟩ with hs2def
  have hrec : s.record_usage disk chatId userId dt =
      (s2, s2.save_month disk mk0) := rfl
  rw [hrec]
  have hview1 : goonView s disk mk0 = monthBucket := by
    rw [hmb, hs1, maybe_load_month_view]
  by_cases hmk : mk = mk0
  · rw [hmk]
    have hview2 : goonView s2 (s2.save_month disk mk0) mk0 = newMonth := by
      unfold goonView
      have h : alookup s2.countsByMonth mk0 = some newMonth := by
        rw [hs2def]
        exact alookup_aset_self _ _ _
      rw [h]
    unfold goonCount
    rw [hview2, hview1]
    by_cases hc : c = chatId
    · rw [hc, hnm, alookup_aset_self, Option.getD_some]
      by_cases hu : u = userId
      · rw [hu, alookup_aset_self, Option.getD_some, hnc, ← hpu]
        simp
      · rw [alookup_aset_ne _ _ _ _ hu, ← hpu]
        simp [hu]
    · rw [hnm, alookup_aset_ne _ _ _ _ hc]
      simp [hc]
  · have hview2 : goonView s2 (s2.save_month disk mk0) mk =
        goonView s1 disk mk := by
      unfold goonView GoonStatsService.save_month
      have hmem : alookup s2.countsByMonth mk = alookup s1.countsByMonth mk := by
        rw [hs2def]
        exact alookup_aset_ne _ _ _ _ hmk
      rw [hmem]
      cases alookup s1.countsByMonth mk with
      | some m => rfl
      | none =>
        have hst2 : s2.hasStorage = s1.hasStorage := rfl
        rw [hst2]
        cases hst : s1.hasStorage with
        | false => simp
        | true => simp [alookup_aset_ne _ _ _ _ hmk]
    have hview1' : goonView s1 disk mk = goonView s disk mk := by
      rw [hs1, maybe_load_month_view_all]
    unfold goonCount
    rw [hview2, hview1']
    simp [hmk]

/-- C8 (read side): `get_top_for_month` changes no effective count. -/
theorem get_top_count (s : GoonStatsService) (disk : GoonDisk)
    (mkq chatq : Int) (topN : Nat) (mk c u : Int) :
    goonCount (s.get_top_for_month disk mkq chatq topN).1 disk mk c u =
      goonCount s disk mk c u := by
  have h : (s.get_top_for_month disk mkq chatq topN).1 =
      s.maybe_load_month disk mkq := rfl
  rw [h]
  unfold goonCount
  rw [maybe_load_month_view_all]

/-- C8 (clear frame): `clear_month(M')` does not touch the effective table
of any other month key. -/
theorem clear_month_view (s : GoonStatsService) (disk : GoonDisk)
    (mkc mk : Int) (hne : mk ≠ mkc) :
    goonView (s.clear_month disk mkc).1 (s.clear_month disk mkc).2 mk =
      goonView s disk mk := by
  have h1 : (s.clear_month disk mkc).1.countsByMonth =
      adel s.countsByMonth mkc := rfl
  have h1b : (s.clear_month disk mkc).1.hasStorage = s.hasStorage := rfl
  have h2 : (s.clear_month disk mkc).2 =
      if s.hasStorage then adel disk mkc else disk := rfl
  unfold goonView
  rw [h1, h1b, h2, alookup_adel_ne _ _ _ hne]
  cases alookup s.countsByMonth mk with
  | some m => rfl
  | none =>
    cases hst : s.hasStorage with
    | false => simp
    | true => simp [alookup_adel_ne _ _ _ hne]

theorem clear_month_count (s : GoonStatsService) (disk : GoonDisk)
    (mkc mk c u : Int) (hne : mk ≠ mkc) :
    goonCount (s.clear_month disk mkc).1 (s.clear_month disk mkc).2 mk c u =
      goonCount s disk mk c u := by
  unfold goonCount
  rw [clear_month_view s disk mkc mk hne]

/-- C8: within a month key the stored counts are monotonically
non-decreasing under every operation except the operator-triggered
`clear_month` of that same month: `record_usage` adds exactly 1 to the one
targeted count (starting from 0) and leaves all others unchanged,
`get_top_for_month` changes nothing, and `clear_month` of a *different*
month key leaves the count unchanged; in particular none of these ever
decreases the count for `(mk, c, u)`. -/
theorem claim_C8_counts_monotone (s : GoonStatsService) (disk : GoonDisk)
    (chatId userId : Int) (dt : PyDateTime) (mkq chatq : Int) (topN : Nat)
    (mk c u mkc : Int) :
    (goonCount (s.record_usage disk chatId userId dt).1
        (s.record_usage disk chatId userId dt).2 mk c u =
      goonCount s disk mk c u +
        (if mk = monthKeyOf dt ∧ c = chatId ∧ u = userId then 1 else 0)) ∧
    goonCount s disk mk c u ≤
      goonCount (s.record_usage disk chatId userId dt).1
        (s.record_usage disk chatId userId dt).2 mk c u ∧
    goonCount (s.get_top_for_month disk mkq chatq topN).1 disk mk c u =
      goonCount s disk mk c u ∧
    (mk ≠ mkc →
      goonCount (s.clear_month disk mkc).1 (s.clear_month disk mkc).2 mk c u =
        goonCount s disk mk c u) := by
  refine ⟨record_usage_count s disk chatId userId dt mk c u, ?_,
    get_top_count s disk mkq chatq topN mk c u,
    fun hne => clear_month_count s disk mkc mk c u hne⟩
  rw [record_usage_count s disk chatId userId dt mk c u]
  by_cases h : mk = monthKeyOf dt ∧ c = chatId ∧ u = userId <;> simp [h]

/-- Witness for C8 at a concrete input: one recorded usage for (chat 2,
user 3), then clearing a different month leaves that count at 1. -/
theorem claim_C8_counts_monotone_witness :
    goonCount ((GoonStatsService.init false).clear_month [] 1).1
        ((GoonStatsService.init false).clear_month [] 1).2 0 2 3 =
      goonCount (GoonStatsService.init false) [] 0 2 3 :=
  (claim_C8_counts_monotone (GoonStatsService.init false) [] 2 3 ⟨0, 180⟩
    0 2 10 0 2 3 1).2.2.2 (by decide)

/-! ### Reachable-state invariant (C10) -/

theorem mem_aset {α β : Type} [DecidableEq α] (l : List (α × β)) (k : α)
    (v : β) (x : α × β) : x ∈ aset l k v → x = (k, v) ∨ x ∈ l := by
  induction l with
  | nil =>
    intro h
    simp [aset] at h
    exact Or.inl h
  | cons hd tl ih =>
    intro h
    by_cases hk : k = hd.1
    · subst hk
      simp only [aset, if_pos rfl] at h
      rcases List.mem_cons.mp h with h' | h'
      · exact Or.inl (by rw [h'])
      · exact Or.inr (List.mem_cons_of_mem _ h')
    · simp only [aset, if_neg hk] at h
      rcases List.mem_cons.mp h with h' | h'
      · exact Or.inr (h' ▸ List.mem_cons_self _ _)
      · rcases ih h' with h'' | h''
        · exact Or.inl h''
        · exact Or.inr (List.mem_cons_of_mem _ h'')

theorem mem_adel {α β : Type} [DecidableEq α] (l : List (α × β)) (k : α)
    (x : α × β) : x ∈ adel l k → x ∈ l := by
  induction l with
  | nil => intro h; simp [adel] at h
  | cons hd tl ih =>
    intro h
    by_cases hk : k = hd.1
    · subst hk
      simp only [adel, if_pos rfl] at h
      exact List.mem_cons_of_mem _ (ih h)
    · simp only [adel, if_neg hk] at h
      rcases List.mem_cons.mp h with h' | h'
      · exact h' ▸ List.mem_cons_self _ _
      · exact List.mem_cons_of_mem _ (ih h')

theorem alookup_mem {α β : Type} [DecidableEq α] (l : List (α × β)) (k : α)
    (v : β) : alookup l k = some v → (k, v) ∈ l := by
  induction l with
  | nil => intro h; simp [alookup] at h
  | cons hd tl ih =>
    intro h
    by_cases hk : k = hd.1
    · subst hk
      have h2 : hd.2 = v := by simpa [alookup] using h
      have h3 : (hd.1, v) = hd := by rw [← h2]
      rw [h3]
      exact List.mem_cons_self _ _
    · simp only [alookup, if_neg hk] at h
      exact List.mem_cons_of_mem _ (ih h)

/-- Serialising a month bucket and parsing it back is the identity: every
field is written as parseable text. -/
theorem loadGoonFile_dump (b : List (Int × List (Int × Int))) :
    loadGoonFile (dumpMonthBucket b) = some b := by
  induction b with
  | nil => rfl
  | cons c rest ih =>
    unfold loadGoonFile dumpMonthBucket at *
    have husers : ∀ us : List (Int × Int), optTraverse
        (fun (u : JField Int × JField Int) =>
          match parseJ u.1, parseJ u.2 with
          | some uid, some cnt => some (uid, cnt)
          | _, _ => none)
        (us.map fun u => (JField.ok u.1, JField.ok u.2)) = some us := by
      intro us
      induction us with
      | nil => rfl
      | cons u urest uih => simp [optTraverse, parseJ_ok, uih]
    simp [optTraverse, parseJ_ok, husers, ih]

/-- Invariant on the in-memory ledger: every stored count is at least 1. -/
def memPos (s : GoonStatsService) : Prop :=
  ∀ m ∈ s.countsByMonth, ∀ c ∈ m.2, ∀ u ∈ c.2, 1 ≤ u.2

/-- Invariant on the durable store: every persisted month file parses, and
every parsed count is at least 1. -/
def diskPos (disk : GoonDisk) : Prop :=
  ∀ f ∈ disk, ∃ r, loadGoonFile f.2 = some r ∧ ∀ c ∈ r, ∀ u ∈ c.2, 1 ≤ u.2

theorem memPos_maybe_load (s : GoonStatsService) (disk : GoonDisk) (mk : Int)
    (hm : memPos s) (hd : diskPos disk) :
    memPos (s.maybe_load_month disk mk) := by
  unfold GoonStatsService.maybe_load_month
  cases hmem : alookup s.countsByMonth mk with
  | some _ => exact hm
  | none =>
    cases hst : s.hasStorage with
    | false => simpa [hst] using hm
    | true =>
      simp only [hst, if_true]
      cases hdk : alookup disk mk with
      | none => exact hm
      | some file =>
        cases hf : loadGoonFile file with
        | none => simpa [hf] using hm
        | some r =>
          simp only [hf]
          intro m hmem' c hc u hu
          rcases mem_aset _ _ _ _ hmem' with h | h
          · obtain ⟨r', hr', hpos⟩ := hd (mk, file) (alookup_mem _ _ _ hdk)
            rw [hf] at hr'
            cases hr'
            subst h
            exact hpos c hc u hu
          · exact hm m h c hc u hu

/-- The reachable states of `GoonStatsService` together with its durable
store: a fresh service over an initially empty store, evolved by
`record_usage`, `get_top_for_month` and `clear_month` (no external
modification of the files). -/
inductive GoonReach : GoonStatsService → GoonDisk → Prop where
  | init : ∀ hs, GoonReach (GoonStatsService.init hs) []
  | record : ∀ s disk chatId userId dt, GoonReach s disk →
      GoonReach (s.record_usage disk chatId userId dt).1
        (s.record_usage disk chatId userId dt).2
  | getTop : ∀ s disk mk chat n, GoonReach s disk →
      GoonReach (s.get_top_for_month disk mk chat n).1 disk
  | clear : ∀ s disk mk, GoonReach s disk →
      GoonReach (s.clear_month disk mk).1 (s.clear_month disk mk).2

theorem goonReach_inv (s : GoonStatsService) (disk : GoonDisk)
    (h : GoonReach s disk) : memPos s ∧ diskPos disk := by
  induction h with
  | init hs =>
    constructor
    · intro m hm
      simp [GoonStatsService.init] at hm
    · intro f hf
      simp at hf
  | record s disk chatId userId dt hr ih =>
    obtain ⟨hm, hd⟩ := ih
    have hm1 : memPos (s.maybe_load_month disk (monthKeyOf dt)) :=
      memPos_maybe_load s disk (monthKeyOf dt) hm hd
    set s1 := s.maybe_load_month disk (monthKeyOf dt) with hs1
    set monthBucket := (alookup s1.countsByMonth (monthKeyOf dt)).getD []
      with hmb
    set perUser := (alookup monthBucket chatId).getD [] with hpu
    have hmonthPos : ∀ c ∈ monthBucket, ∀ u ∈ c.2, 1 ≤ u.2 := by
      rw [hmb]
      cases hmem : alookup s1.countsByMonth (monthKeyOf dt) with
      | none => simp
      | some m =>
        simpa using hm1 (monthKeyOf dt, m) (alookup_mem _ _ _ hmem)
    have hperUserPos : ∀ u ∈ perUser, 1 ≤ u.2 := by
      rw [hpu]
      cases hcm : alookup monthBucket chatId with
      | none => simp
      | some pu =>
        simpa using hmonthPos (chatId, pu) (alookup_mem _ _ _ hcm)
    have hnewCount : 1 ≤ (alookup perUser userId).getD 0 + 1 := by
      cases halo : alookup perUser userId with
      | none => simp
      | some v =>
        have := hperUserPos (userId, v) (alookup_mem _ _ _ halo)
        simp only [Option.getD_some]
        omega
    have hnewMonth : ∀ c ∈ aset monthBucket chatId
        (aset perUser userId ((alookup perUser userId).getD 0 + 1)),
        ∀ u ∈ c.2, 1 ≤ u.2 := by
      intro c hc u hu
      rcases mem_aset _ _ _ _ hc with h' | h'
      · subst h'
        rcases mem_aset _ _ _ _ hu with h'' | h''
        · rw [h'']
          exact hnewCount
        · exact hperUserPos u h''
      · exact hmonthPos c h' u hu
    have hrec : s.record_usage disk chatId userId dt =
        (⟨aset s1.countsByMonth (monthKeyOf dt)
            (aset monthBucket chatId
              (aset perUser userId ((alookup perUser userId).getD 0 + 1))),
          s1.hasStorage⟩,
         GoonStatsService.save_month
          ⟨aset s1.countsByMonth (monthKeyOf dt)
            (aset monthBucket chatId
              (aset perUser userId ((alookup perUser userId).getD 0 + 1))),
            s1.hasStorage⟩ disk (monthKeyOf dt)) := rfl
    rw [hrec]
    constructor
    · intro m hmem' c hc u hu
      rcases mem_aset _ _ _ _ hmem' with h' | h'
      · have : m.2 = aset monthBucket chatId
            (aset perUser userId ((alookup perUser userId).getD 0 + 1)) := by
          rw [h']
        rw [this] at hc
        exact hnewMonth c hc u hu
      · exact hm1 m h' c hc u hu
    · unfold GoonStatsService.save_month
      cases hst : s1.hasStorage with
      | false =>
        simpa using hd
      | true =>
        simp only [if_true]
        intro f hf
        rcases mem_aset _ _ _ _ hf with h' | h'
        · refine ⟨aset monthBucket chatId
            (aset perUser userId ((alookup perUser userId).getD 0 + 1)), ?_, ?_⟩
          · rw [h']
            show loadGoonFile (dumpMonthBucket
              ((alookup (aset s1.countsByMonth (monthKeyOf dt) _)
                (monthKeyOf dt)).getD [])) = _
            rw [alookup_aset_self, Option.getD_some, loadGoonFile_dump]
          · exact hnewMonth
        · exact hd f h'
  | getTop s disk mk chat n hr ih =>
    obtain ⟨hm, hd⟩ := ih
    exact ⟨memPos_maybe_load s disk mk hm hd, hd⟩
  | clear s disk mk hr ih =>
    obtain ⟨hm, hd⟩ := ih
    constructor
    · intro m hmem' c hc u hu
      exact hm m (mem_adel _ _ _ hmem') c hc u hu
    · unfold GoonStatsService.clear_month
      cases hst : s.hasStorage with
      | false => simpa using hd
      | true =>
        simp only [if_true]
        intro f hf
        exact hd f (mem_adel _ _ _ hf)

/-- C10: in every state reachable from the empty service and empty store
through `record_usage`, `get_top_for_month` and `clear_month` (without
external modification of the durable files), every stored count is at least
1; hence `get_top_for_month` never returns a row with count 0 or negative,
and its result has at most `top_n` rows. -/
theorem claim_C10_counts_positive (s : GoonStatsService) (disk : GoonDisk)
    (h : GoonReach s disk) (mk chat : Int) (n : Nat) :
    (s.get_top_for_month disk mk chat n).2.length ≤ n ∧
    ∀ gu ∈ (s.get_top_for_month disk mk chat n).2, 1 ≤ gu.count := by
  obtain ⟨hm, hd⟩ := goonReach_inv s disk h
  have hm1 : memPos (s.maybe_load_month disk mk) :=
    memPos_maybe_load s disk mk hm hd
  set s1 := s.maybe_load_month disk mk with hs1
  set perChat := (alookup ((alookup s1.countsByMonth mk).getD []) chat).getD []
    with hpc
  have hres : (s.get_top_for_month disk mk chat n).2 =
      ((perChat.insertionSort goonLe).take n).map
        (fun p => GoonUsage.mk p.1 p.2) := rfl
  have hperChatPos : ∀ u ∈ perChat, 1 ≤ u.2 := by
    rw [hpc]
    cases hmem : alookup s1.countsByMonth mk with
    | none => simp [alookup]
    | some m =>
      cases hcm : alookup m chat with
      | none => simp [hcm]
      | some pu =>
        simp only [hcm, Option.getD_some]
        exact fun u hu => hm1 (mk, m) (alookup_mem _ _ _ hmem) (chat, pu)
          (alookup_mem _ _ _ hcm) u hu
  constructor
  · rw [hres, List.length_map, List.length_take]
    exact min_le_left _ _
  · rw [hres]
    intro gu hgu
    obtain ⟨p, hp, hgu'⟩ := List.mem_map.mp hgu
    have hp' : p ∈ perChat.insertionSort goonLe :=
      List.mem_of_mem_take hp
    have hp'' : p ∈ perChat :=
      (List.perm_insertionSort goonLe perChat).mem_iff.mp hp'
    rw [← hgu']
    exact hperChatPos p hp''

/-- Witness for C10 at a concrete reachable state: one recorded usage, then a
top-5 query — every returned count is at least 1 and at most 5 rows. -/
theorem claim_C10_counts_positive_witness :
    (((GoonStatsService.init false).record_usage [] 1 2
        ⟨0, 180⟩).1.get_top_for_month
      ((GoonStatsService.init false).record_usage [] 1 2 ⟨0, 180⟩).2
      (monthKeyOf ⟨0, 180⟩) 1 5).2.length ≤ 5 ∧
    ∀ gu ∈ (((GoonStatsService.init false).record_usage [] 1 2
        ⟨0, 180⟩).1.get_top_for_month
      ((GoonStatsService.init false).record_usage [] 1 2 ⟨0, 180⟩).2
      (monthKeyOf ⟨0, 180⟩) 1 5).2, 1 ≤ gu.count :=
  claim_C10_counts_positive _ _
    (GoonReach.record (GoonStatsService.init false) [] 1 2 ⟨0, 180⟩
      (GoonReach.init false))
    (monthKeyOf ⟨0, 180⟩) 1 5

/-! ### Purity of reads (C9) -/

/-- C9 (counterexample to the claim as stated): reads are not free of logical
effect on every state.  A persisted daily record with an unparsable `sent_at`
is defaulted to the *current* time when first loaded and then cached, so
performing a read at one instant changes what a later read returns compared
with not having read at all. -/
theorem claim_C9_counterexample :
    (((DailyVoteService.init true).get_entries_for_date
        [(0, [(JField.ok 1, [⟨JField.ok 1, JField.ok 10, "f", JField.bad⟩])])]
        0 1 ⟨111, 180⟩).1.get_entries_for_date
        [(0, [(JField.ok 1, [⟨JField.ok 1, JField.ok 10, "f", JField.bad⟩])])]
        0 1 ⟨222, 180⟩).2 ≠
      ((DailyVoteService.init true).get_entries_for_date
        [(0, [(JField.ok 1, [⟨JField.ok 1, JField.ok 10, "f", JField.bad⟩])])]
        0 1 ⟨222, 180⟩).2 := by
  decide

/-- The effective date bucket seen through the cache: memory when cached,
otherwise what loading the durable unit at instant `now` would produce. -/
def dailyView (s : DailyVoteService) (disk : DailyDisk) (dk : Int)
    (now : PyDateTime) : List (Int × List DailyPhotoEntry) :=
  match alookup s.entriesByDate dk with
  | some b => b
  | none =>
    if s.hasStorage then
      match alookup disk dk with
      | some f => (loadDailyFile f now).getD []
      | none => []
    else []

/-- After `_maybe_load_date(dk)` the in-memory bucket for `dk` holds exactly
the effective date bucket. -/
theorem maybe_load_date_view (s : DailyVoteService) (disk : DailyDisk)
    (dk : Int) (now : PyDateTime) :
    (alookup (s.maybe_load_date disk dk now).entriesByDate dk).getD [] =
      dailyView s disk dk now := by
  unfold DailyVoteService.maybe_load_date dailyView
  cases hm : alookup s.entriesByDate dk with
  | some b => simp [hm]
  | none =>
    cases hst : s.hasStorage with
    | false => simp [hst, hm]
    | true =>
      simp only [hst, if_true]
      cases hd : alookup disk dk with
      | none => simp [hm]
      | some file =>
        cases hf : loadDailyFile file now with
        | some r => simp [alookup_aset_self, hf]
        | none => simp [hm, hf]

/-- `_maybe_load_date(dk)` does not change the effective bucket of any other
date key, over any durable store. -/
theorem maybe_load_date_view_ne (s : DailyVoteService) (disk d' : DailyDisk)
    (dk dk' : Int) (now now' : PyDateTime) (hne : dk' ≠ dk) :
    dailyView (s.maybe_load_date disk dk now) d' dk' now' =
      dailyView s d' dk' now' := by
  unfold DailyVoteService.maybe_load_date
  cases hm : alookup s.entriesByDate dk with
  | some b => rfl
  | none =>
    cases hst : s.hasStorage with
    | false => simp [hst]
    | true =>
      simp only [hst, if_true]
      cases hd : alookup disk dk with
      | none => rfl
      | some file =>
        cases hf : loadDailyFile file now with
        | none => simp [hf]
        | some r =>
          unfold dailyView
          simp [hf, hst, alookup_aset_ne _ _ _ _ hne]

/-- `_maybe_load_date(dk)` does not change the effective bucket of `dk`
itself, over any durable store that agrees with the one read at `dk`,
provided that unit parses the same at both instants (which holds whenever its
timestamps are parseable). -/
theorem maybe_load_date_view_eq (s : DailyVoteService) (disk d' : DailyDisk)
    (dk : Int) (now now' : PyDateTime)
    (hagree : alookup d' dk = alookup disk dk)
    (hdet : ∀ file, alookup disk dk = some file →
      loadDailyFile file now = loadDailyFile file now') :
    dailyView (s.maybe_load_date disk dk now) d' dk now' =
      dailyView s d' dk now' := by
  unfold DailyVoteService.maybe_load_date
  cases hm : alookup s.entriesByDate dk with
  | some b => rfl
  | none =>
    cases hst : s.hasStorage with
    | false => simp [hst]
    | true =>
      simp only [hst, if_true]
      cases hd : alookup disk dk with
      | none => rfl
      | some file =>
        cases hf : loadDailyFile file now with
        | none => simp [hf]
        | some r =>
          unfold dailyView
          simp only [hf, alookup_aset_self, hagree, hd]
          rw [← hdet file hd, hf]
          simp [hm, hst]

theorem maybe_load_month_hasStorage (s : GoonStatsService) (disk : GoonDisk)
    (mk : Int) : (s.maybe_load_month disk mk).hasStorage = s.hasStorage := by
  unfold GoonStatsService.maybe_load_month
  split
  · rfl
  · split
    · split
      · rfl
      · split
        · rfl
        · rfl
    · rfl

/-- `_maybe_load_month(mk)` does not change the effective table of any other
month key, over any durable store. -/
theorem maybe_load_month_view_ne (s : GoonStatsService) (disk d' : GoonDisk)
    (mk mk' : Int) (hne : mk' ≠ mk) :
    goonView (s.maybe_load_month disk mk) d' mk' = goonView s d' mk' := by
  unfold GoonStatsService.maybe_load_month
  cases hm : alookup s.countsByMonth mk with
  | some b => rfl
  | none =>
    cases hst : s.hasStorage with
    | false => simp [hst]
    | true =>
      simp only [hst, if_true]
      cases hd : alookup disk mk with
      | none => rfl
      | some file =>
        cases hf : loadGoonFile file with
        | none => simp [hf]
        | some r =>
          unfold goonView
          simp [hf, hst, alookup_aset_ne _ _ _ _ hne]

/-- `_maybe_load_month(mk)` does not change the effective table of `mk`
itself, over any durable store agreeing with the one read at `mk`. -/
theorem maybe_load_month_view_eq (s : GoonStatsService) (disk d' : GoonDisk)
    (mk : Int) (hagree : alookup d' mk = alookup disk mk) :
    goonView (s.maybe_load_month disk mk) d' mk = goonView s d' mk := by
  unfold GoonStatsService.maybe_load_month
  cases hm : alookup s.countsByMonth mk with
  | some b => rfl
  | none =>
    cases hst : s.hasStorage with
    | false => simp [hst]
    | true =>
      simp only [hst, if_true]
      cases hd : alookup disk mk with
      | none => rfl
      | some file =>
        cases hf : loadGoonFile file with
        | none => simp [hf]
        | some r =>
          unfold goonView
          simp only [hf, alookup_aset_self, hagree, hd]
          simp [hm, hst]

/-- The durable store after `record_entry`, expressed through the effective
bucket: the date's file is rewritten with the bucket extended by the new
entry (no write without a storage directory). -/
theorem record_entry_disk (s : DailyVoteService) (disk : DailyDisk)
    (c2 m2 : Int) (f2 : String) (t2 n2 : PyDateTime) :
    (s.record_entry disk c2 m2 f2 t2 n2).2 =
      if s.hasStorage then
        aset disk (dateKeyOf t2)
          (dumpDateBucket (aset (dailyView s disk (dateKeyOf t2) n2) c2
            ((alookup (dailyView s disk (dateKeyOf t2) n2) c2).getD [] ++
              [⟨c2, m2, f2, t2.astimezone moscowOffsetMin⟩])))
      else disk := by
  set dk2 := dateKeyOf t2 with hdk2
  set s1 := s.maybe_load_date disk dk2 n2 with hs1
  set dateBucket := (alookup s1.entriesByDate dk2).getD [] with hdbucket
  set chatList := (alookup dateBucket c2).getD [] with hclist
  set entry : DailyPhotoEntry := ⟨c2, m2, f2, t2.astimezone moscowOffsetMin⟩
    with hentry
  set s2 : DailyVoteService :=
    ⟨aset s1.entriesByDate dk2 (aset dateBucket c2 (chatList ++ [entry])),
      s1.hasStorage⟩ with hs2def
  have hrec : (s.record_entry disk c2 m2 f2 t2 n2).2 = s2.save_date disk dk2 :=
    rfl
  have hview : dateBucket = dailyView s disk dk2 n2 := by
    rw [hdbucket, hs1, maybe_load_date_view]
  have hst2 : s2.hasStorage = s.hasStorage := by
    show s1.hasStorage = s.hasStorage
    rw [hs1, maybe_load_date_hasStorage]
  rw [hrec]
  unfold DailyVoteService.save_date
  rw [hst2]
  cases hs : s.hasStorage with
  | false => simp
  | true =>
    simp only [if_true]
    congr 1
    show dumpDateBucket ((alookup (aset s1.entriesByDate dk2
      (aset dateBucket c2 (chatList ++ [entry]))) dk2).getD []) = _
    rw [alookup_aset_self, Option.getD_some, hclist, hview]

/-- The in-memory state after `record_entry`, seen through the effective
buckets: only the date key of the new entry changes, to the prior effective
bucket extended by the new entry. -/
theorem record_entry_state_view (s : DailyVoteService) (disk : DailyDisk)
    (c2 m2 : Int) (f2 : String) (t2 n2 : PyDateTime) (d' : DailyDisk)
    (dkq : Int) (nq : PyDateTime) :
    dailyView (s.record_entry disk c2 m2 f2 t2 n2).1 d' dkq nq =
      if dkq = dateKeyOf t2 then
        aset (dailyView s disk (dateKeyOf t2) n2) c2
          ((alookup (dailyView s disk (dateKeyOf t2) n2) c2).getD [] ++
            [⟨c2, m2, f2, t2.astimezone moscowOffsetMin⟩])
      else dailyView (s.maybe_load_date disk (dateKeyOf t2) n2) d' dkq nq := by
  set dk2 := dateKeyOf t2 with hdk2
  set s1 := s.maybe_load_date disk dk2 n2 with hs1
  set dateBucket := (alookup s1.entriesByDate dk2).getD [] with hdbucket
  set chatList := (alookup dateBucket c2).getD [] with hclist
  set entry : DailyPhotoEntry := ⟨c2, m2, f2, t2.astimezone moscowOffsetMin⟩
    with hentry
  set s2 : DailyVoteService :=
    ⟨aset s1.entriesByDate dk2 (aset dateBucket c2 (chatList ++ [entry])),
      s1.hasStorage⟩ with hs2def
  have hrec : (s.record_entry disk c2 m2 f2 t2 n2).1 = s2 := rfl
  have hview : dateBucket = dailyView s disk dk2 n2 := by
    rw [hdbucket, hs1, maybe_load_date_view]
  rw [hrec]
  by_cases hq : dkq = dk2
  · rw [hq]
    have hmem : alookup s2.entriesByDate dk2 =
        some (aset dateBucket c2 (chatList ++ [entry])) := by
      rw [hs2def]
      exact alookup_aset_self _ _ _
    have hL : dailyView s2 d' dk2 nq =
        aset dateBucket c2 (chatList ++ [entry]) := by
      unfold dailyView
      rw [hmem]
    rw [hL, hclist, hview]
    simp
  · have hmem : alookup s2.entriesByDate dkq = alookup s1.entriesByDate dkq := by
      rw [hs2def]
      exact alookup_aset_ne _ _ _ _ hq
    have hL : dailyView s2 d' dkq nq = dailyView s1 d' dkq nq := by
      unfold dailyView
      rw [hmem]
    rw [hL]
    simp [hq]

/-- The durable store after `record_usage`, expressed through the effective
table. -/
theorem record_usage_disk (s : GoonStatsService) (disk : GoonDisk)
    (chatId userId : Int) (dt : PyDateTime) :
    (s.record_usage disk chatId userId dt).2 =
      if s.hasStorage then
        aset disk (monthKeyOf dt)
          (dumpMonthBucket (aset (goonView s disk (monthKeyOf dt)) chatId
            (aset ((alookup (goonView s disk (monthKeyOf dt)) chatId).getD [])
              userId
              ((alookup ((alookup (goonView s disk (monthKeyOf dt))
                chatId).getD []) userId).getD 0 + 1))))
      else disk := by
  set mk0 := monthKeyOf dt with hmk0
  set s1 := s.maybe_load_month disk mk0 with hs1
  set monthBucket := (alookup s1.countsByMonth mk0).getD [] with hmb
  set perUser := (alookup monthBucket chatId).getD [] with hpu
  set newCount := (alookup perUser userId).getD 0 + 1 with hnc
  set s2 : GoonStatsService :=
    ⟨aset s1.countsByMonth mk0
      (aset monthBucket chatId (aset perUser userId newCount)),
      s1.hasStorage⟩ with hs2def
  have hrec : (s.record_usage disk chatId userId dt).2 =
      s2.save_month disk mk0 := rfl
  have hview : monthBucket = goonView s disk mk0 := by
    rw [hmb, hs1, maybe_load_month_view]
  have hst2 : s2.hasStorage = s.hasStorage := by
    show s1.hasStorage = s.hasStorage
    rw [hs1, maybe_load_month_hasStorage]
  rw [hrec]
  unfold GoonStatsService.save_month
  rw [hst2]
  cases hs : s.hasStorage with
  | false => simp
  | true =>
    simp only [if_true]
    congr 1
    show dumpMonthBucket ((alookup (aset s1.countsByMonth mk0
      (aset monthBucket chatId (aset perUser userId newCount))) mk0).getD [])
      = _
    rw [alookup_aset_self, Option.getD_some, hnc, hpu, hview]

/-- The in-memory state after `record_usage`, seen through the effective
tables: only the month key of the recording changes. -/
theorem record_usage_state_view (s : GoonStatsService) (disk : GoonDisk)
    (chatId userId : Int) (dt : PyDateTime) (d' : GoonDisk) (mkq : Int) :
    goonView (s.record_usage disk chatId userId dt).1 d' mkq =
      if mkq = monthKeyOf dt then
        aset (goonView s disk (monthKeyOf dt)) chatId
          (aset ((alookup (goonView s disk (monthKeyOf dt)) chatId).getD [])
            userId
            ((alookup ((alookup (goonView s disk (monthKeyOf dt))
              chatId).getD []) userId).getD 0 + 1))
      else goonView (s.maybe_load_month disk (monthKeyOf dt)) d' mkq := by
  set mk0 := monthKeyOf dt with hmk0
  set s1 := s.maybe_load_month disk mk0 with hs1
  set monthBucket := (alookup s1.countsByMonth mk0).getD [] with hmb
  set perUser := (alookup monthBucket chatId).getD [] with hpu
  set newCount := (alookup perUser userId).getD 0 + 1 with hnc
  set s2 : GoonStatsService :=
    ⟨aset s1.countsByMonth mk0
      (aset monthBucket chatId (aset perUser userId newCount)),
      s1.hasStorage⟩ with hs2def
  have hrec : (s.record_usage disk chatId userId dt).1 = s2 := rfl
  have hview : monthBucket = goonView s disk mk0 := by
    rw [hmb, hs1, maybe_load_month_view]
  rw [hrec]
  by_cases hq : mkq = mk0
  · rw [hq]
    have hmem : alookup s2.countsByMonth mk0 =
        some (aset monthBucket chatId (aset perUser userId newCount)) := by
      rw [hs2def]
      exact alookup_aset_self _ _ _
    have hL : goonView s2 d' mk0 =
        aset monthBucket chatId (aset perUser userId newCount) := by
      unfold goonView
      rw [hmem]
    rw [hL, hnc, hpu, hview]
    simp
  · have hmem : alookup s2.countsByMonth mkq = alookup s1.countsByMonth mkq := by
      rw [hs2def]
      exact alookup_aset_ne _ _ _ _ hq
    have hL : goonView s2 d' mkq = goonView s1 d' mkq := by
      unfold goonView
      rw [hmem]
    rw [hL]
    simp [hq]

/-- Over a store whose unit at `dk` parses the same at all instants,
`_maybe_load_date(dk)` changes no effective bucket at all. -/
theorem maybe_load_date_view_pres (s : DailyVoteService) (disk : DailyDisk)
    (dk dk' : Int) (now now' : PyDateTime)
    (hdet : ∀ file, alookup disk dk = some file →
      loadDailyFile file now = loadDailyFile file now') :
    dailyView (s.maybe_load_date disk dk now) disk dk' now' =
      dailyView s disk dk' now' := by
  by_cases h : dk' = dk
  · rw [h]
    exact maybe_load_date_view_eq s disk disk dk now now' rfl hdet
  · exact maybe_load_date_view_ne s disk disk dk dk' now now' h

/-- The rows `get_top_for_month` returns are a function of the effective
month table alone. -/
theorem get_top_res_view (g : GoonStatsService) (gdisk : GoonDisk)
    (mk cg : Int) (n : Nat) :
    (g.get_top_for_month gdisk mk cg n).2 =
      ((((alookup (goonView g gdisk mk) cg).getD []).insertionSort
        goonLe).take n).map (fun p => GoonUsage.mk p.1 p.2) := by
  show ((((alookup ((alookup (g.maybe_load_month gdisk mk).countsByMonth
    mk).getD []) cg).getD []).insertionSort goonLe).take n).map _ = _
  rw [maybe_load_month_view]

/-- C9 (amended): the reads `get_chats_for_date`, `get_entries_for_date` and
`get_top_for_month` are logically pure, provided every persisted daily-vote
unit parses independently of the current instant (i.e. no unparsable
`sent_at` that the loader would default to "now" — otherwise the
counterexample applies); the monthly-stats side needs no proviso.  Reads
change no effective bucket or count (they only populate the cache from the
same durable content), their results are functions of the effective content,
any read after a read returns exactly what it would have returned without
the earlier read, and a write (`record_entry` / `record_usage`) after a read
persists the same durable state and leaves an observationally equal service
state. -/
theorem claim_C9_reads_pure (s : DailyVoteService) (disk : DailyDisk)
    (g : GoonStatsService) (gdisk : GoonDisk)
    (hdet : ∀ dk file, alookup disk dk = some file →
      ∀ n1 n2 : PyDateTime, loadDailyFile file n1 = loadDailyFile file n2)
    (dk dk' c c' : Int) (now now' nq : PyDateTime)
    (c2 m2 : Int) (f2 : String) (t2 n2 : PyDateTime) (dkq : Int)
    (mk mk' cg cg' ch us : Int) (n n' : Nat) (dtg : PyDateTime) (mkq : Int) :
    (dailyView ((s.get_entries_for_date disk dk c now).1) disk dk' now' =
      dailyView s disk dk' now') ∧
    (dailyView ((s.get_chats_for_date disk dk now).1) disk dk' now' =
      dailyView s disk dk' now') ∧
    ((s.get_entries_for_date disk dk c now).2 =
      (alookup (dailyView s disk dk now) c).getD []) ∧
    ((s.get_chats_for_date disk dk now).2 =
      (dailyView s disk dk now).map (·.1)) ∧
    (((s.get_entries_for_date disk dk c now).1.get_entries_for_date disk dk'
        c' now').2 = (s.get_entries_for_date disk dk' c' now').2) ∧
    (((s.get_entries_for_date disk dk c now).1.get_chats_for_date disk dk'
        now').2 = (s.get_chats_for_date disk dk' now').2) ∧
    (((s.get_entries_for_date disk dk c now).1.record_entry disk c2 m2 f2 t2
        n2).2 = (s.record_entry disk c2 m2 f2 t2 n2).2) ∧
    (dailyView ((s.get_entries_for_date disk dk c now).1.record_entry disk c2
        m2 f2 t2 n2).1 (s.record_entry disk c2 m2 f2 t2 n2).2 dkq nq =
      dailyView (s.record_entry disk c2 m2 f2 t2 n2).1
        (s.record_entry disk c2 m2 f2 t2 n2).2 dkq nq) ∧
    (goonView ((g.get_top_for_month gdisk mk cg n).1) gdisk mk' =
      goonView g gdisk mk') ∧
    (((g.get_top_for_month gdisk mk cg n).1.get_top_for_month gdisk mk' cg'
        n').2 = (g.get_top_for_month gdisk mk' cg' n').2) ∧
    (((g.get_top_for_month gdisk mk cg n).1.record_usage gdisk ch us dtg).2 =
      (g.record_usage gdisk ch us dtg).2) ∧
    (goonView ((g.get_top_for_month gdisk mk cg n).1.record_usage gdisk ch us
        dtg).1 (g.record_usage gdisk ch us dtg).2 mkq =
      goonView (g.record_usage gdisk ch us dtg).1
        (g.record_usage gdisk ch us dtg).2 mkq) := by
  have hread1 : (s.get_entries_for_date disk dk c now).1 =
      s.maybe_load_date disk dk now := rfl
  have hread2 : (s.get_chats_for_date disk dk now).1 =
      s.maybe_load_date disk dk now := rfl
  have hgread : (g.get_top_for_month gdisk mk cg n).1 =
      g.maybe_load_month gdisk mk := rfl
  have hpres : ∀ dkx nowx nowy,
      dailyView (s.maybe_load_date disk dk now) disk dkx nowx =
        dailyView s disk dkx nowy := by
    intro dkx nowx nowy
    have h1 := maybe_load_date_view_pres s disk dk dkx now nowx
      (fun f hf => hdet dk f hf now nowx)
    rw [h1]
    unfold dailyView
    cases alookup s.entriesByDate dkx with
    | some b => rfl
    | none =>
      cases hst : s.hasStorage with
      | false => simp
      | true =>
        simp only [if_true]
        cases hd : alookup disk dkx with
        | none => rfl
        | some f => simp [hdet dkx f hd nowx nowy]
  have hb1 : ∀ (sx : DailyVoteService) (dkx cx : Int) (nowx : PyDateTime),
      (sx.get_entries_for_date disk dkx cx nowx).2 =
        (alookup (dailyView sx disk dkx nowx) cx).getD [] := by
    intro sx dkx cx nowx
    show (alookup ((alookup (sx.maybe_load_date disk dkx nowx).entriesByDate
      dkx).getD []) cx).getD [] = _
    rw [maybe_load_date_view]
  have hb2 : ∀ (sx : DailyVoteService) (dkx : Int) (nowx : PyDateTime),
      (sx.get_chats_for_date disk dkx nowx).2 =
        (dailyView sx disk dkx nowx).map (·.1) := by
    intro sx dkx nowx
    show ((alookup (sx.maybe_load_date disk dkx nowx).entriesByDate
      dkx).getD []).map (·.1) = _
    rw [maybe_load_date_view]
  have hviewt2 : dailyView (s.maybe_load_date disk dk now) disk
      (dateKeyOf t2) n2 = dailyView s disk (dateKeyOf t2) n2 :=
    hpres (dateKeyOf t2) n2 n2
  have hstd : (s.maybe_load_date disk dk now).hasStorage = s.hasStorage :=
    maybe_load_date_hasStorage s disk dk now
  have hgviewd : goonView (g.maybe_load_month gdisk mk) gdisk
      (monthKeyOf dtg) = goonView g gdisk (monthKeyOf dtg) :=
    maybe_load_month_view_all g gdisk mk (monthKeyOf dtg)
  have hgstd : (g.maybe_load_month gdisk mk).hasStorage = g.hasStorage :=
    maybe_load_month_hasStorage g gdisk mk
  refine ⟨?_, ?_, ?_, ?_, ?_, ?_, ?_, ?_, ?_, ?_, ?_, ?_⟩
  · rw [hread1]
    exact hpres dk' now' now'
  · rw [hread2]
    exact hpres dk' now' now'
  · exact hb1 s dk c now
  · exact hb2 s dk now
  · rw [hb1 _ dk' c' now', hb1 s dk' c' now', hread1, hpres dk' now' now']
  · rw [hb2 _ dk' now', hb2 s dk' now', hread1, hpres dk' now' now']
  · rw [hread1, record_entry_disk, record_entry_disk, hviewt2, hstd]
  · rw [hread1, record_entry_state_view, record_entry_state_view]
    by_cases hq : dkq = dateKeyOf t2
    · simp only [if_pos hq]
      rw [hviewt2]
    · simp only [if_neg hq]
      rw [maybe_load_date_view_ne _ _ _ _ _ _ _ hq,
        maybe_load_date_view_ne _ _ _ _ _ _ _ hq]
      by_cases hqk : dkq = dk
      · rw [hqk]
        have hagree : alookup (s.record_entry disk c2 m2 f2 t2 n2).2 dk =
            alookup disk dk := by
          rw [record_entry_disk]
          cases hs : s.hasStorage with
          | false => simp
          | true =>
            simp only [if_true]
            have hne : dk ≠ dateKeyOf t2 := by
              rw [← hqk]
              exact hq
            exact alookup_aset_ne _ _ _ _ hne
        exact maybe_load_date_view_eq s disk _ dk now nq hagree
          (fun f hf => hdet dk f hf now nq)
      · exact maybe_load_date_view_ne s disk _ dk dkq now nq hqk
  · rw [hgread]
    exact maybe_load_month_view_all g gdisk mk mk'
  · rw [get_top_res_view, get_top_res_view, hgread,
      maybe_load_month_view_all g gdisk mk mk']
  · rw [hgread, record_usage_disk, record_usage_disk, hgviewd, hgstd]
  · rw [hgread, record_usage_state_view, record_usage_state_view]
    by_cases hq : mkq = monthKeyOf dtg
    · simp only [if_pos hq]
      rw [hgviewd]
    · simp only [if_neg hq]
      rw [maybe_load_month_view_ne _ _ _ _ _ hq,
        maybe_load_month_view_ne _ _ _ _ _ hq]
      by_cases hqk : mkq = mk
      · rw [hqk]
        have hagree : alookup (g.record_usage gdisk ch us dtg).2 mk =
            alookup gdisk mk := by
          rw [record_usage_disk]
          cases hs : g.hasStorage with
          | false => simp
          | true =>
            simp only [if_true]
            have hne : mk ≠ monthKeyOf dtg := by
              rw [← hqk]
              exact hq
            exact alookup_aset_ne _ _ _ _ hne
        exact maybe_load_month_view_eq g gdisk _ mk hagree
      · exact maybe_load_month_view_ne g gdisk _ mk mkq hqk

/-- Witness for the amended C9 at a concrete input: over a store holding one
fully parseable daily record, a read at one instant followed by a read at a
later instant returns exactly what the later read would have returned alone. -/
theorem claim_C9_reads_pure_witness :
    (((DailyVoteService.init true).get_entries_for_date
        [(0, [(JField.ok 1, [⟨JField.ok 1, JField.ok 10, "f",
          JField.ok ⟨0, 0, 0, 0, 0, 180⟩⟩])])]
        0 1 ⟨111, 180⟩).1.get_entries_for_date
        [(0, [(JField.ok 1, [⟨JField.ok 1, JField.ok 10, "f",
          JField.ok ⟨0, 0, 0, 0, 0, 180⟩⟩])])]
        0 1 ⟨222, 180⟩).2 =
      ((DailyVoteService.init true).get_entries_for_date
        [(0, [(JField.ok 1, [⟨JField.ok 1, JField.ok 10, "f",
          JField.ok ⟨0, 0, 0, 0, 0, 180⟩⟩])])]
        0 1 ⟨222, 180⟩).2 :=
  (claim_C9_reads_pure (DailyVoteService.init true)
    [(0, [(JField.ok 1, [⟨JField.ok 1, JField.ok 10, "f",
      JField.ok ⟨0, 0, 0, 0, 0, 180⟩⟩])])]
    (GoonStatsService.init true) []
    (by
      intro dkx file h n1 n2
      by_cases hdk : dkx = 0
      · subst hdk
        simp [alookup] at h
        subst h
        rfl
      · simp [alookup, hdk] at h)
    0 0 1 1 ⟨111, 180⟩ ⟨222, 180⟩ ⟨0, 180⟩ 1 1 "x" ⟨0, 180⟩ ⟨0, 180⟩ 0
    0 0 0 0 0 0 1 1 ⟨0, 180⟩ 0).2.2.2.2.1
